import Mathlib

/-!
# The GRES/GPU parsing pipelines of prometheus-slurm-exporter

A shallow embedding of `gpus.go` (`parseGRES`, `ParseGPUsMetrics`) and `gres.go`
(`ParseGresGPUMetrics`), together with the library functions they call.

Modelling conventions.

* A Go `string` is a `List Char` (`Str`): the text is taken to be valid UTF-8, so that the
  byte-level operations of the Go library (`Split` on an ASCII byte, `HasPrefix`, `Contains`,
  `==`) coincide with the same operations on the list of code points.
* A Go `float64` is an `F64`: a finite value is stored as the integer `m` with real value
  `m * 2^(-1074)` (every finite binary64 number is such a multiple), next to both infinities
  and NaN.  Sums and differences are rounded to nearest, ties to even, with 53 significant
  bits, and overflow to an infinity.  The two zeros are identified, as Go's `==` does.
* `strconv.ParseFloat` follows `strconv/atof.go` for what it accepts (`special`, `readFloat`,
  `underscoreOK`) and is correctly rounded, as that package documents.
* A `for ... range` loop over a slice is a `List.foldl` of its body, a `continue` leaving the
  loop variables as they are.
* A Go `map[string]bool` used as a set is the list of its keys.
* The sends of `Collect` on its channel are the list of the metrics sent, in order; the
  output of the external command is a parameter.
-/

namespace SlurmExporter

/-- A Go string, as the list of its code points. -/
abbrev Str := List Char

/-! ## binary64 -/

/-- A binary64 value.  `fin m` is the real number `m * 2^(-1074)`. -/
inductive F64 where
  | fin (m : Int)
  | inf (neg : Bool)
  | nan
deriving DecidableEq, Repr

namespace F64

/-- Quotient `a / b` rounded to the nearest integer, ties to the even one. -/
def roundHalfEven (a b : Nat) : Nat :=
  let q := a / b
  let r := a % b
  if b < 2 * r ∨ (2 * r = b ∧ q % 2 = 1) then q + 1 else q

/-- Number of binary digits of `n`, by halving at most `fuel` times. -/
def bitLenAux : Nat → Nat → Nat
  | 0, _ => 0
  | fuel + 1, n => if n = 0 then 0 else bitLenAux fuel (n / 2) + 1

/-- Number of binary digits of `n` (`0` for `n = 0`); `n` halvings always suffice. -/
def bitLen (n : Nat) : Nat := bitLenAux n n

/-- The rational `a / b` rounded to the nearest natural number with at most 53 significant
bits, ties to even: the quantum is `2^e` where `e` is the number of bits of `a / b` beyond
53. -/
def roundSig (a b : Nat) : Nat :=
  let e := bitLen (a / b) - 53
  roundHalfEven a (b * 2 ^ e) * 2 ^ e

/-- The binary64 value nearest to `± (a / b) * 2^(-1074)`; magnitudes that round to `2^1024`
or more become an infinity. -/
def ofScaled (neg : Bool) (a b : Nat) : F64 :=
  let m := roundSig a b
  if 2 ^ 2098 ≤ m then inf neg else fin (if neg then -(m : Int) else (m : Int))

/-- The binary64 value nearest to `z * 2^(-1074)`. -/
def round (z : Int) : F64 := ofScaled (decide (z < 0)) z.natAbs 1

/-- The binary64 value nearest to the integer `k`. -/
def ofInt (k : Int) : F64 := round (k * ((2 ^ 1074 : Nat) : Int))

/-- The binary64 value nearest to the natural number `k`. -/
def ofNat (k : Nat) : F64 := ofInt (k : Int)

/-- The constant `0.0`. -/
def zero : F64 := fin 0

/-- Go's `x + y` on `float64`. -/
def add : F64 → F64 → F64
  | fin a, fin b => round (a + b)
  | fin _, inf s => inf s
  | inf s, fin _ => inf s
  | inf s, inf t => if s = t then inf s else nan
  | _, _ => nan

/-- Go's unary `-x` on `float64`. -/
def neg : F64 → F64
  | fin a => fin (-a)
  | inf s => inf (!s)
  | nan => nan

/-- Go's `x - y` on `float64`. -/
def sub (x y : F64) : F64 := add x (neg y)

/-- The sum of a list of values, accumulated from `0.0` from left to right. -/
def sum (xs : List F64) : F64 := xs.foldl add zero

end F64

/-! ## package `strings` -/

/-- Pieces of `s` between the characters that satisfy `p`; the pieces may be empty and there
is always at least one. -/
def splitBy (p : Char → Bool) : Str → List Str
  | [] => [[]]
  | c :: cs =>
    if p c then [] :: splitBy p cs
    else
      match splitBy p cs with
      | [] => [[c]]
      | f :: fs => (c :: f) :: fs

/-- Go's `strings.Split(s, sep)` for a separator of one character. -/
def Split (s : Str) (sep : Char) : List Str := splitBy (fun c => c == sep) s

/-- Go's `unicode.IsSpace`. -/
def isSpace (c : Char) : Bool :=
  let n := c.toNat
  (9 ≤ n && n ≤ 13) || n == 0x20 || n == 0x85 || n == 0xA0 || n == 0x1680 ||
  (0x2000 ≤ n && n ≤ 0x200A) || n == 0x2028 || n == 0x2029 || n == 0x202F ||
  n == 0x205F || n == 0x3000

/-- Go's `strings.Fields`: the maximal runs of non-space characters. -/
def Fields (s : Str) : List Str := (splitBy isSpace s).filter (fun f => !f.isEmpty)

/-- Go's `strings.HasPrefix`. -/
def HasPrefix (s pre : Str) : Bool := pre.isPrefixOf s

/-- Go's `strings.Contains`. -/
def Contains : Str → Str → Bool
  | [], sub => sub.isEmpty
  | c :: cs, sub => sub.isPrefixOf (c :: cs) || Contains cs sub

/-! ## `strconv.ParseFloat` -/

/-- ASCII decimal digit. -/
def isDigit (c : Char) : Bool := 48 ≤ c.toNat && c.toNat ≤ 57

/-- The letters `a`..`f` and `A`..`F`. -/
def isHexLetter (c : Char) : Bool :=
  (97 ≤ c.toNat && c.toNat ≤ 102) || (65 ≤ c.toNat && c.toNat ≤ 70)

/-- Value of a decimal digit. -/
def digitVal (c : Char) : Nat := c.toNat - 48

/-- Value of a hexadecimal letter. -/
def hexLetterVal (c : Char) : Nat :=
  if 97 ≤ c.toNat then c.toNat - 97 + 10 else c.toNat - 65 + 10

/-- ASCII lower case of a character. -/
def lowerASCII (c : Char) : Char :=
  if 65 ≤ c.toNat ∧ c.toNat ≤ 90 then Char.ofNat (c.toNat + 32) else c

/-- Length of the longest prefix of `s` that equals, ignoring ASCII case, a prefix of the
lower-case word `w`. -/
def commonPrefixLenIgnoreCase : Str → Str → Nat
  | c :: s, p :: w => if lowerASCII c = p then commonPrefixLenIgnoreCase s w + 1 else 0
  | _, _ => 0

/-- The `inf` / `infinity` case of `special`, after `nsign` sign characters. -/
def specialInf (isNeg : Bool) (nsign : Nat) (s : Str) : Option (F64 × Nat) :=
  let n := commonPrefixLenIgnoreCase s "infinity".toList
  let n := if 3 < n ∧ n < 8 then 3 else n
  if n = 3 ∨ n = 8 then some (F64.inf isNeg, nsign + n) else none

/-- The function `special` of `strconv`: the value and the number of characters read when `s`
starts with an infinity or a NaN. -/
def special (s : Str) : Option (F64 × Nat) :=
  match s with
  | [] => none
  | c :: rest =>
    if c = '+' ∨ c = '-' then specialInf (decide (c = '-')) 1 rest
    else if c = 'i' ∨ c = 'I' then specialInf false 0 s
    else if c = 'n' ∨ c = 'N' then
      if commonPrefixLenIgnoreCase s "nan".toList = 3 then some (F64.nan, 3) else none
    else none

/-- What the mantissa loop of `readFloat` has seen. -/
structure Mantissa where
  /-- the digits read so far, as a number in the base -/
  digits : Nat
  /-- how many of them follow the point -/
  frac : Nat
  sawdot : Bool
  sawdigits : Bool
deriving DecidableEq, Repr

/-- Appends a digit of value `d` in base `base`. -/
def Mantissa.push (m : Mantissa) (base d : Nat) : Mantissa :=
  { m with digits := m.digits * base + d,
           frac := if m.sawdot then m.frac + 1 else m.frac,
           sawdigits := true }

/-- The mantissa loop of `readFloat`: reads underscores, at most one point and digits, and
returns what it has seen with the unread rest. -/
def readMantissa (hex : Bool) : Str → Mantissa → Mantissa × Str
  | [], m => (m, [])
  | c :: cs, m =>
    if c = '_' then readMantissa hex cs m
    else if c = '.' then
      if m.sawdot then (m, c :: cs) else readMantissa hex cs { m with sawdot := true }
    else if isDigit c then
      readMantissa hex cs (m.push (if hex then 16 else 10) (digitVal c))
    else if hex && isHexLetter c then
      readMantissa hex cs (m.push 16 (hexLetterVal c))
    else (m, c :: cs)

/-- The exponent of `readFloat`, read from what follows the exponent character: an optional
sign, then a digit, then digits and underscores.  As in `readFloat` the magnitude stops
growing once it has reached 10000. -/
def readExponent (s : Str) : Option (Int × Str) :=
  let signed : Int × Str :=
    match s with
    | [] => (1, [])
    | c :: t => if c = '+' then (1, t) else if c = '-' then (-1, t) else (1, s)
  match signed.2 with
  | [] => none
  | c :: _ =>
    if isDigit c then
      let isExp : Char → Bool := fun d => isDigit d || d == '_'
      let e : Nat := (signed.2.takeWhile isExp).foldl
        (fun e d => if d = '_' then e else if e < 10000 then e * 10 + digitVal d else e) 0
      some (signed.1 * (e : Int), signed.2.dropWhile isExp)
    else none

/-- The step of the loop of `underscoreOK`; `saw` is the last kind of character seen. -/
def underscoreStep (hex : Bool) : Char → Str → Bool
  | saw, [] => saw != '_'
  | saw, c :: cs =>
    if isDigit c || (hex && isHexLetter c) then underscoreStep hex '0' cs
    else if c = '_' then
      if saw != '0' then false else underscoreStep hex '_' cs
    else if saw = '_' then false
    else underscoreStep hex '!' cs

/-- The function `underscoreOK` of `strconv`: underscores stand only between digits, or
between a base prefix and a digit. -/
def underscoreOK (s : Str) : Bool :=
  let s := match s with
    | [] => []
    | c :: t => if c = '-' ∨ c = '+' then t else s
  match s with
  | c :: d :: t =>
    if c = '0' ∧ (lowerASCII d = 'b' ∨ lowerASCII d = 'o' ∨ lowerASCII d = 'x') then
      underscoreStep (decide (lowerASCII d = 'x')) '0' t
    else underscoreStep false '^' s
  | _ => underscoreStep false '^' s

/-- The value `± digits * base^(-frac) * x^e` as a binary64 number, where `x` is 10 for a
decimal literal and 2 for a hexadecimal one. -/
def floatOfParts (isNeg hex : Bool) (m : Mantissa) (e : Int) : F64 :=
  let x : Nat := if hex then 2 else 10
  let base : Nat := if hex then 16 else 10
  let up : Nat := if 0 ≤ e then x ^ e.natAbs else 1
  let down : Nat := if 0 ≤ e then 1 else x ^ e.natAbs
  F64.ofScaled isNeg (m.digits * 2 ^ 1074 * up) (base ^ m.frac * down)

/-- The optional sign of `readFloat`: whether it is `-`, and what follows it. -/
def readSign (s : Str) : Bool × Str :=
  match s with
  | [] => (false, [])
  | c :: t => if c = '+' then (false, t) else if c = '-' then (true, t) else (false, s)

/-- The test of `readFloat` for a base prefix: `0x` or `0X` with something after it. -/
def hasHexPrefix (s : Str) : Bool :=
  match s with
  | c :: d :: _ :: _ => c == '0' && lowerASCII d == 'x'
  | _ => false

/-- The function `readFloat` of `strconv` followed by the conversion: the value of the
longest prefix of `s` that is a decimal or hexadecimal floating-point literal, with the
unread rest; `none` when there is no such prefix. -/
def readFloat (s : Str) : Option (F64 × Str) :=
  let signed := readSign s
  let hex := hasHexPrefix signed.2
  let body := if hex then signed.2.drop 2 else signed.2
  let mr := readMantissa hex body ⟨0, 0, false, false⟩
  if s.isEmpty || !mr.1.sawdigits then none
  else
    match mr.2 with
    | c :: t =>
      if lowerASCII c = (if hex then 'p' else 'e') then
        match readExponent t with
        | none => none
        | some (e, rest) => some (floatOfParts signed.1 hex mr.1 e, rest)
      else if hex then none
      else some (floatOfParts signed.1 hex mr.1 0, mr.2)
    | [] => if hex then none else some (floatOfParts signed.1 hex mr.1 0, [])

/-- Go's `strconv.ParseFloat(s, 64)`, its error dropped as `parseGRES` does: the binary64
value nearest to the literal `s`, an infinity when it is out of range, and `0` when `s` is
not wholly a well-formed literal. -/
def ParseFloat (s : Str) : F64 :=
  match special s with
  | some (v, n) => if n = s.length then v else F64.zero
  | none =>
    match readFloat s with
    | some (v, []) => if underscoreOK s then v else F64.zero
    | _ => F64.zero

/-! ## `gpus.go` -/

/-- The method `gpuGresPattern.FindStringSubmatch(g)` for the pattern
`^gpu\:([^\:]+)\:?(\d+)?` of `gpus.go`.  The result is the list of the whole match and the
two captures, a capture that took no part being the empty string, or the empty list (Go's
`nil`) when `g` does not match.

The pattern is anchored at the start and each of its pieces is greedy, so the match Go's
leftmost-first search reports is: the literal `gpu:`; the longest run of characters other
than `:`, which must not be empty (what follows it is a `:` or the end of `g`, and both later
pieces may match nothing, so the search never gives a character of this run back); a `:`
when one follows; the longest run of ASCII digits, possibly empty. -/
def gpuGresPattern.FindStringSubmatch (g : Str) : List Str :=
  if HasPrefix g "gpu:".toList then
    let rest := g.drop 4
    let subtype := rest.takeWhile (fun c => c != ':')
    if subtype.isEmpty then []
    else
      let afterSubtype := rest.dropWhile (fun c => c != ':')
      let colon : Str :=
        match afterSubtype with
        | c :: _ => if c = ':' then [':'] else []
        | [] => []
      let count := (afterSubtype.drop colon.length).takeWhile isDigit
      ["gpu:".toList ++ subtype ++ colon ++ count, subtype, count]
  else []

/-- The body of the loop of `parseGRES`: the new `value` after the element `g`
(`submatches` is the slice `matches` of the source). -/
def parseGRESBody (value : F64) (g : Str) : F64 :=
  if !HasPrefix g "gpu:".toList then value
  else
    let submatches := gpuGresPattern.FindStringSubmatch g
    if submatches.length = 3 then
      if submatches.getD 2 [] ≠ [] then ParseFloat (submatches.getD 2 [])
      else ParseFloat (submatches.getD 1 [])
    else value

/-- The function `parseGRES` of `gpus.go`. -/
def parseGRES (line : Str) : F64 :=
  (Split line ',').foldl parseGRESBody F64.zero

/-- The record `GPUsMetrics` of `gpus.go`. -/
structure GPUsMetrics where
  alloc : F64
  idle : F64
  total : F64
deriving DecidableEq, Repr

/-- The variables of the loop of `ParseGPUsMetrics`: the record `gm` and the keys of the map
`seen`. -/
structure GPUsLoop where
  gm : GPUsMetrics
  seen : List Str
deriving DecidableEq, Repr

/-- The body of the loop of `ParseGPUsMetrics`, for one line. -/
def gpusLoopBody (st : GPUsLoop) (line : Str) : GPUsLoop :=
  let data := Fields line
  if data.length ≠ 3 then st
  else if data.getD 0 [] ∈ st.seen then st
  else
    let avail := parseGRES (data.getD 1 [])
    let alloc := parseGRES (data.getD 2 [])
    { gm := { alloc := st.gm.alloc.add alloc,
              total := st.gm.total.add avail,
              idle := st.gm.idle.add (avail.sub alloc) },
      seen := data.getD 0 [] :: st.seen }

/-- The variables before the loop: `var gm GPUsMetrics` and an empty map. -/
def GPUsLoop.init : GPUsLoop := ⟨⟨F64.zero, F64.zero, F64.zero⟩, []⟩

/-- The loop of `ParseGPUsMetrics` run on the whole input: the record with the map. -/
def gpusLoop (input : Str) : GPUsLoop :=
  (Split input '\n').foldl gpusLoopBody GPUsLoop.init

/-- The function `ParseGPUsMetrics` of `gpus.go`. -/
def ParseGPUsMetrics (input : Str) : GPUsMetrics := (gpusLoop input).gm

/-! ## `gres.go` -/

/-- The record `GresGPUMetrics` of `gres.go`. -/
structure GresGPUMetrics where
  pending : F64
  pending_dep : F64
  running : F64
  suspended : F64
  cancelled : F64
  completing : F64
  completed : F64
  configuring : F64
  failed : F64
  timeout : F64
  preempted : F64
  node_fail : F64
deriving DecidableEq, Repr

/-- Go's `x++` on a `float64`. -/
def F64.incr (x : F64) : F64 := x.add (F64.ofNat 1)

/-- The `switch state` statement of the loop of `ParseGresGPUMetrics`, for a line whose
fields are `splitted`. -/
def gresSwitch (qm : GresGPUMetrics) (splitted : List Str) : GresGPUMetrics :=
  let state := splitted.getD 1 []
  if state = "PENDING".toList then
    let qm := { qm with pending := qm.pending.incr }
    if 2 < splitted.length ∧ splitted.getD 2 [] = "Dependency".toList then
      { qm with pending_dep := qm.pending_dep.incr }
    else qm
  else if state = "RUNNING".toList then { qm with running := qm.running.incr }
  else if state = "SUSPENDED".toList then { qm with suspended := qm.suspended.incr }
  else if state = "CANCELLED".toList then { qm with cancelled := qm.cancelled.incr }
  else if state = "COMPLETING".toList then { qm with completing := qm.completing.incr }
  else if state = "COMPLETED".toList then { qm with completed := qm.completed.incr }
  else if state = "CONFIGURING".toList then { qm with configuring := qm.configuring.incr }
  else if state = "FAILED".toList then { qm with failed := qm.failed.incr }
  else if state = "TIMEOUT".toList then { qm with timeout := qm.timeout.incr }
  else if state = "PREEMPTED".toList then { qm with preempted := qm.preempted.incr }
  else if state = "NODE_FAIL".toList then { qm with node_fail := qm.node_fail.incr }
  else qm

/-- The body of the loop of `ParseGresGPUMetrics`, for one line. -/
def gresLoopBody (qm : GresGPUMetrics) (line : Str) : GresGPUMetrics :=
  let splitted := Fields line
  if splitted.length ≠ 3 then qm
  else if !Contains (splitted.getD 2 []) "gres/gpu".toList then qm
  else gresSwitch qm splitted

/-- The zero value of `GresGPUMetrics`. -/
def GresGPUMetrics.zero : GresGPUMetrics :=
  ⟨F64.zero, F64.zero, F64.zero, F64.zero, F64.zero, F64.zero,
   F64.zero, F64.zero, F64.zero, F64.zero, F64.zero, F64.zero⟩

/-- The function `ParseGresGPUMetrics` of `gres.go`. -/
def ParseGresGPUMetrics (input : Str) : GresGPUMetrics :=
  (Split input '\n').foldl gresLoopBody GresGPUMetrics.zero

/-! ## Vocabulary of the statements -/

/-- The input whose lines are `ls`: the lines joined by newlines.  Every input is
`joinLines` of its own lines (`joinLines_Split`), none of which holds a newline
(`not_mem_of_mem_Split`). -/
def joinLines : List Str → Str
  | [] => []
  | [l] => l
  | l :: l' :: ls => l ++ '\n' :: joinLines (l' :: ls)

/-- The `i`-th whitespace-separated field of a line, counted from 0 (empty when absent). -/
def field (line : Str) (i : Nat) : Str := (Fields line).getD i []

/-- The line has exactly three whitespace-separated fields. -/
def hasThreeFields (line : Str) : Bool := (Fields line).length == 3

/-- A line is counted when it has exactly three fields and its first field is not the first
field of one of the `earlier` lines that have three fields. -/
def isCounted (earlier : List Str) (line : Str) : Bool :=
  hasThreeFields line &&
    earlier.all (fun l => !(hasThreeFields l && field l 0 == field line 0))

/-- The counted lines among `ls`, which come after the lines `earlier`. -/
def countedFrom (earlier : List Str) : List Str → List Str
  | [] => []
  | l :: ls =>
    if isCounted earlier l then l :: countedFrom (earlier ++ [l]) ls
    else countedFrom (earlier ++ [l]) ls

/-- The counted lines of an input: those with exactly three fields whose first field is not
the first field of an earlier three-field line. -/
def countedLines (input : Str) : List Str := countedFrom [] (Split input '\n')

/-- The GRES value of the second field of a node line: the GPUs of the node. -/
def availOf (line : Str) : F64 := parseGRES (field line 1)

/-- The GRES value of the third field of a node line: the GPUs in use on the node. -/
def usedOf (line : Str) : F64 := parseGRES (field line 2)

/-- The natural number denoted by a run of decimal digits. -/
def decimalValue (n : Str) : Nat := n.foldl (fun v c => v * 10 + digitVal c) 0

/-- The binary64 value that is exactly the integer `k`; it is a binary64 number when
`|k| ≤ 2^53`. -/
def F64.int (k : Int) : F64 := F64.fin (k * ((2 ^ 1074 : Nat) : Int))

/-- The line has exactly three fields, the third contains `gres/gpu` and the second is
exactly `label`. -/
def isJobLine (label line : Str) : Bool :=
  hasThreeFields line && Contains (field line 2) "gres/gpu".toList && field line 1 == label

/-- Number of lines of the input that are job lines with the state `label`. -/
def jobCount (label input : Str) : Nat := (Split input '\n').countP (isJobLine label)

/-- The eleven state labels of `ParseGresGPUMetrics`. -/
def stateLabels : List Str :=
  ["PENDING".toList, "RUNNING".toList, "SUSPENDED".toList, "CANCELLED".toList,
   "COMPLETING".toList, "COMPLETED".toList, "CONFIGURING".toList, "FAILED".toList,
   "TIMEOUT".toList, "PREEMPTED".toList, "NODE_FAIL".toList]

/-- Go's `x <= y` on `float64`; false when one side is NaN. -/
def F64.le : F64 → F64 → Bool
  | F64.fin a, F64.fin b => decide (a ≤ b)
  | F64.fin _, F64.inf s => !s
  | F64.inf s, F64.fin _ => s
  | F64.inf s, F64.inf t => s || !t
  | _, _ => false

/-- Go's `x < y` on `float64`; false when one side is NaN. -/
def F64.lt : F64 → F64 → Bool
  | F64.fin a, F64.fin b => decide (a < b)
  | F64.fin _, F64.inf s => !s
  | F64.inf s, F64.fin _ => s
  | F64.inf s, F64.inf t => s && !t
  | _, _ => false

/-- The counters of two records added one by one. -/
def GresGPUMetrics.add (x y : GresGPUMetrics) : GresGPUMetrics :=
  { pending := x.pending.add y.pending,
    pending_dep := x.pending_dep.add y.pending_dep,
    running := x.running.add y.running,
    suspended := x.suspended.add y.suspended,
    cancelled := x.cancelled.add y.cancelled,
    completing := x.completing.add y.completing,
    completed := x.completed.add y.completed,
    configuring := x.configuring.add y.configuring,
    failed := x.failed.add y.failed,
    timeout := x.timeout.add y.timeout,
    preempted := x.preempted.add y.preempted,
    node_fail := x.node_fail.add y.node_fail }

/-- A character with which no literal that `ParseFloat` accepts begins: anything but a digit,
a sign, the point, the underscore and the letters `i`, `I`, `n`, `N`. -/
def beginsNoLiteral (c : Char) : Bool :=
  !(isDigit c || c == '+' || c == '-' || c == '.' || c == '_' ||
    c == 'i' || c == 'I' || c == 'n' || c == 'N')

/-! ## The collectors -/

/-- A `prometheus.Desc` as `prometheus.NewDesc(fqName, help, nil, nil)` makes it: a name and
a help text, without labels. -/
structure Desc where
  fqName : String
  help : String
deriving DecidableEq, Repr

/-- The type `prometheus.ValueType`. -/
inductive ValueType where
  | CounterValue
  | GaugeValue
  | UntypedValue
deriving DecidableEq, Repr

/-- A constant metric, as `prometheus.MustNewConstMetric` makes it for a descriptor without
labels: the descriptor, the type and the value. -/
structure Metric where
  desc : Desc
  valueType : ValueType
  value : F64
deriving DecidableEq, Repr

/-- The function `prometheus.NewDesc` without labels. -/
def NewDesc (fqName help : String) : Desc := ⟨fqName, help⟩

/-- The function `prometheus.MustNewConstMetric` without label values. -/
def MustNewConstMetric (desc : Desc) (valueType : ValueType) (value : F64) : Metric :=
  ⟨desc, valueType, value⟩

/-- The type `GPUsCollector` of `gpus.go`. -/
structure GPUsCollector where
  alloc : Desc
  idle : Desc
  total : Desc
deriving DecidableEq, Repr

/-- The function `NewGPUsCollector` of `gpus.go`. -/
def NewGPUsCollector : GPUsCollector :=
  { alloc := NewDesc "slurm_gpus_alloc" "Allocated GPUs",
    idle := NewDesc "slurm_gpus_idle" "Idle GPUs",
    total := NewDesc "slurm_gpus_total" "Total GPUs" }

/-- The function `GPUsGetMetrics` of `gpus.go`, with the output `data` of `GPUsData()` given. -/
def GPUsGetMetrics (data : Str) : GPUsMetrics := ParseGPUsMetrics data

/-- The method `Collect` of `GPUsCollector`, with the output `data` of `GPUsData()` given:
the metrics sent on the channel, in the order in which they are sent. -/
def GPUsCollector.Collect (cc : GPUsCollector) (data : Str) : List Metric :=
  let cm := GPUsGetMetrics data
  [MustNewConstMetric cc.alloc ValueType.GaugeValue cm.alloc,
   MustNewConstMetric cc.idle ValueType.GaugeValue cm.idle,
   MustNewConstMetric cc.total ValueType.GaugeValue cm.total]

/-- The type `GresGPUCollector` of `gres.go`. -/
structure GresGPUCollector where
  pending : Desc
  pending_dep : Desc
  running : Desc
  suspended : Desc
  cancelled : Desc
  completing : Desc
  completed : Desc
  configuring : Desc
  failed : Desc
  timeout : Desc
  preempted : Desc
  node_fail : Desc
deriving DecidableEq, Repr

/-- The function `NewGresGPUCollector` of `gres.go`. -/
def NewGresGPUCollector : GresGPUCollector :=
  { pending := NewDesc "slurm_gres_gpu_pending" "Pending gres/gpu jobs in queue",
    pending_dep := NewDesc "slurm_gres_gpu_pending_dependency"
      "Pending gres/gpu jobs because of dependency in queue",
    running := NewDesc "slurm_gres_gpu_running" "Running gres/gpu jobs in the cluster",
    suspended := NewDesc "slurm_gres_gpu_suspended" "Suspended gres/gpu jobs in the cluster",
    cancelled := NewDesc "slurm_gres_gpu_cancelled" "Cancelled gres/gpu jobs in the cluster",
    completing := NewDesc "slurm_gres_gpu_completing" "Completing gres/gpu jobs in the cluster",
    completed := NewDesc "slurm_gres_gpu_completed" "Completed gres/gpu jobs in the cluster",
    configuring := NewDesc "slurm_gres_gpu_configuring"
      "Configuring gres/gpu jobs in the cluster",
    failed := NewDesc "slurm_gres_gpu_failed" "Number of failed gres/gpu jobs",
    timeout := NewDesc "slurm_gres_gpu_timeout" "gres/gpu Jobs stopped by timeout",
    preempted := NewDesc "slurm_gres_gpu_preempted" "Number of preempted gres/gpu jobs",
    node_fail := NewDesc "slurm_gres_gpu_node_fail"
      "Number of gres/gpu jobs stopped due to node fail" }

/-- The function `GresGPUGetMetrics` of `gres.go`, with the output `data` of `GresGPUData()`
given. -/
def GresGPUGetMetrics (data : Str) : GresGPUMetrics := ParseGresGPUMetrics data

/-- The method `Collect` of `GresGPUCollector`, with the output `data` of `GresGPUData()`
given: the metrics sent on the channel, in the order in which they are sent. -/
def GresGPUCollector.Collect (qc : GresGPUCollector) (data : Str) : List Metric :=
  let qm := GresGPUGetMetrics data
  [MustNewConstMetric qc.pending ValueType.GaugeValue qm.pending,
   MustNewConstMetric qc.pending_dep ValueType.GaugeValue qm.pending_dep,
   MustNewConstMetric qc.running ValueType.GaugeValue qm.running,
   MustNewConstMetric qc.suspended ValueType.GaugeValue qm.suspended,
   MustNewConstMetric qc.cancelled ValueType.GaugeValue qm.cancelled,
   MustNewConstMetric qc.completing ValueType.GaugeValue qm.completing,
   MustNewConstMetric qc.completed ValueType.GaugeValue qm.completed,
   MustNewConstMetric qc.configuring ValueType.GaugeValue qm.configuring,
   MustNewConstMetric qc.failed ValueType.GaugeValue qm.failed,
   MustNewConstMetric qc.timeout ValueType.GaugeValue qm.timeout,
   MustNewConstMetric qc.preempted ValueType.GaugeValue qm.preempted,
   MustNewConstMetric qc.node_fail ValueType.GaugeValue qm.node_fail]

/-- The name and the value of an emitted metric. -/
def Metric.sample (m : Metric) : String × F64 := (m.desc.fqName, m.value)

/-! ## Lines -/

theorem splitBy_ne_nil (p : Char → Bool) (s : Str) : splitBy p s ≠ [] := by
  cases s with
  | nil => simp [splitBy]
  | cons c cs =>
    unfold splitBy
    split
    · simp
    · split <;> simp

theorem splitBy_cons_of_pos (p : Char → Bool) (c : Char) (cs : Str) (h : p c = true) :
    splitBy p (c :: cs) = [] :: splitBy p cs := by
  simp [splitBy, h]

theorem splitBy_cons_of_neg (p : Char → Bool) (c : Char) (cs : Str) (h : p c = false) :
    splitBy p (c :: cs) = ((splitBy p cs).headD [] |>.cons c) :: (splitBy p cs).tail := by
  have hne := splitBy_ne_nil p cs
  cases hs : splitBy p cs with
  | nil => exact absurd hs hne
  | cons f fs => simp [splitBy, h, hs]

theorem splitBy_append_sep (p : Char → Bool) (a b : Str) (c : Char) (hc : p c = true) :
    splitBy p (a ++ c :: b) = splitBy p a ++ splitBy p b := by
  induction a with
  | nil => simp [splitBy, hc]
  | cons x a ih =>
    by_cases hx : p x = true
    · rw [List.cons_append, splitBy_cons_of_pos _ _ _ hx, splitBy_cons_of_pos _ _ _ hx, ih]
      rfl
    · have hx' : p x = false := by simpa using hx
      have hne := splitBy_ne_nil p a
      rw [List.cons_append, splitBy_cons_of_neg _ _ _ hx', splitBy_cons_of_neg _ _ _ hx', ih]
      cases h : splitBy p a with
      | nil => exact absurd h hne
      | cons f fs => simp

theorem splitBy_of_forall_not (p : Char → Bool) (s : Str) (h : ∀ c ∈ s, p c = false) :
    splitBy p s = [s] := by
  induction s with
  | nil => simp [splitBy]
  | cons c cs ih =>
    have hc : p c = false := h c (List.mem_cons_self _ _)
    have := ih (fun d hd => h d (List.mem_cons_of_mem _ hd))
    simp [splitBy, hc, this]

theorem Split_append_sep (a b : Str) (sep : Char) :
    Split (a ++ sep :: b) sep = Split a sep ++ Split b sep :=
  splitBy_append_sep _ a b sep (by simp)

theorem Split_of_not_mem (s : Str) (sep : Char) (h : sep ∉ s) : Split s sep = [s] := by
  apply splitBy_of_forall_not
  intro c hc
  have : c ≠ sep := fun e => h (e ▸ hc)
  simpa using this

theorem joinLines_cons_cons (c : Char) (f : Str) (fs : List Str) :
    joinLines ((c :: f) :: fs) = c :: joinLines (f :: fs) := by
  cases fs with
  | nil => rfl
  | cons g gs => rfl

theorem joinLines_Split (s : Str) : joinLines (Split s '\n') = s := by
  unfold Split
  induction s with
  | nil => rfl
  | cons c cs ih =>
    have hne := splitBy_ne_nil (fun c => c == '\n') cs
    cases hs : splitBy (fun c => c == '\n') cs with
    | nil => exact absurd hs hne
    | cons f fs =>
      rw [hs] at ih
      by_cases hc : (c == '\n') = true
      · have hce : c = '\n' := by simpa using hc
        rw [splitBy_cons_of_pos (fun c => c == '\n') c cs hc, hs, joinLines, ih, hce]
        rfl
      · have hc' : (c == '\n') = false := by simpa using hc
        rw [splitBy_cons_of_neg (fun c => c == '\n') c cs hc', hs]
        simp only [List.headD_cons, List.tail_cons]
        rw [joinLines_cons_cons, ih]

theorem not_mem_of_mem_splitBy (p : Char → Bool) (s : Str) :
    ∀ l ∈ splitBy p s, ∀ c ∈ l, p c = false := by
  induction s with
  | nil =>
    intro l hl c hc
    simp only [splitBy, List.mem_singleton] at hl
    subst hl
    exact absurd hc (List.not_mem_nil c)
  | cons x xs ih =>
    intro l hl c hc
    have hne := splitBy_ne_nil p xs
    cases hs : splitBy p xs with
    | nil => exact absurd hs hne
    | cons f fs =>
      rw [hs] at ih
      by_cases hx : p x = true
      · rw [splitBy_cons_of_pos _ _ _ hx, hs] at hl
        rcases List.mem_cons.mp hl with rfl | hl
        · exact absurd hc (List.not_mem_nil c)
        · exact ih l hl c hc
      · have hx' : p x = false := by simpa using hx
        rw [splitBy_cons_of_neg _ _ _ hx', hs] at hl
        simp only [List.headD_cons, List.tail_cons] at hl
        rcases List.mem_cons.mp hl with rfl | hl
        · rcases List.mem_cons.mp hc with rfl | hc
          · exact hx'
          · exact ih f (List.mem_cons_self _ _) c hc
        · exact ih l (List.mem_cons_of_mem _ hl) c hc

theorem not_mem_of_mem_Split (s : Str) (sep : Char) : ∀ l ∈ Split s sep, sep ∉ l := by
  intro l hl hmem
  have := not_mem_of_mem_splitBy (fun c => c == sep) s l hl sep hmem
  simp at this

theorem Split_joinLines (ls : List Str) (hne : ls ≠ []) (h : ∀ l ∈ ls, '\n' ∉ l) :
    Split (joinLines ls) '\n' = ls := by
  induction ls with
  | nil => exact absurd rfl hne
  | cons l ls ih =>
    cases ls with
    | nil => simpa [joinLines] using Split_of_not_mem l '\n' (h l (List.mem_cons_self _ _))
    | cons l' ls =>
      have h1 := Split_of_not_mem l '\n' (h l (List.mem_cons_self _ _))
      have h2 := ih (by simp) (fun x hx => h x (List.mem_cons_of_mem _ hx))
      rw [joinLines, Split_append_sep, h1, h2]
      rfl

/-! ## Exact binary64 arithmetic on integers up to `2^53` -/

namespace F64

theorem bitLenAux_le_iff (fuel : Nat) :
    ∀ n k : Nat, n ≤ fuel → (bitLenAux fuel n ≤ k ↔ n < 2 ^ k) := by
  induction fuel with
  | zero =>
    intro n k h
    have hn : n = 0 := by omega
    subst hn
    simp [bitLenAux, Nat.two_pow_pos]
  | succ fuel ih =>
    intro n k h
    by_cases hn : n = 0
    · subst hn
      simp [bitLenAux, Nat.two_pow_pos]
    · simp only [bitLenAux, hn, if_false]
      cases k with
      | zero =>
        constructor
        · intro h0; omega
        · intro h0; simp at h0; omega
      | succ k =>
        have h2 : n / 2 ≤ fuel := by omega
        rw [Nat.add_le_add_iff_right, ih (n / 2) k h2, Nat.div_lt_iff_lt_mul (by decide),
          Nat.pow_succ]

theorem bitLen_le_iff (n k : Nat) : bitLen n ≤ k ↔ n < 2 ^ k :=
  bitLenAux_le_iff n n k (Nat.le_refl n)

theorem roundHalfEven_mul_of_dvd (a b : Nat) (hb : 0 < b) (h : b ∣ a) :
    roundHalfEven a b * b = a := by
  obtain ⟨c, rfl⟩ := h
  have h1 : b * c / b = c := Nat.mul_div_cancel_left c hb
  have h2 : b * c % b = 0 := Nat.mul_mod_right b c
  have h3 : ¬ (b < 2 * 0 ∨ (2 * 0 = b ∧ c % 2 = 1)) := by omega
  simp only [roundHalfEven, h1, h2, h3, if_false]
  exact Nat.mul_comm c b

theorem roundSig_of_dvd (a : Nat) (h : 2 ^ (bitLen a - 53) ∣ a) : roundSig a 1 = a := by
  simp only [roundSig, Nat.div_one, Nat.one_mul]
  exact roundHalfEven_mul_of_dvd a _ (Nat.two_pow_pos _) h

theorem mul_two_pow_le (n s : Nat) (h : n ≤ 2 ^ 53) : n * 2 ^ s ≤ 2 ^ (53 + s) := by
  rw [Nat.pow_add]
  exact Nat.mul_le_mul_right _ h

theorem roundSig_mul_two_pow (n s : Nat) (h : n ≤ 2 ^ 53) :
    roundSig (n * 2 ^ s) 1 = n * 2 ^ s := by
  apply roundSig_of_dvd
  rcases Nat.lt_or_eq_of_le h with hlt | heq
  · have hb : bitLen (n * 2 ^ s) ≤ 53 + s := by
      rw [bitLen_le_iff, Nat.pow_add]
      exact Nat.mul_lt_mul_of_pos_right hlt (Nat.two_pow_pos _)
    have he : bitLen (n * 2 ^ s) - 53 ≤ s := by omega
    exact Dvd.dvd.mul_left (Nat.pow_dvd_pow 2 he) n
  · subst heq
    rw [← Nat.pow_add]
    have hb : bitLen (2 ^ (53 + s)) ≤ 53 + s + 1 := by
      rw [bitLen_le_iff]
      exact Nat.pow_lt_pow_right (by decide) (Nat.lt_succ_self _)
    have he : bitLen (2 ^ (53 + s)) - 53 ≤ 53 + s := by omega
    exact Nat.pow_dvd_pow 2 he

theorem mul_two_pow_lt_overflow (n s t : Nat) (h : n ≤ 2 ^ 53) (hst : 53 + s < t) :
    ¬ 2 ^ t ≤ n * 2 ^ s := by
  have h1 := mul_two_pow_le n s h
  have h2 : 2 ^ (53 + s) < 2 ^ t := Nat.pow_lt_pow_right (by decide) hst
  omega

/-- Within `|k| ≤ 2^53` the nearest binary64 value to the integer `k` is `k` itself. -/
theorem ofInt_eq_int (k : Int) (h : k.natAbs ≤ 2 ^ 53) : ofInt k = int k := by
  have hS : (0 : Int) < ((2 ^ 1074 : Nat) : Int) := by positivity
  have habs : (k * ((2 ^ 1074 : Nat) : Int)).natAbs = k.natAbs * 2 ^ 1074 := by
    rw [Int.natAbs_mul, Int.natAbs_ofNat]
  simp only [ofInt, int, round, ofScaled, habs, roundSig_mul_two_pow _ _ h,
    mul_two_pow_lt_overflow _ 1074 2098 h (by norm_num), if_false]
  congr 1
  by_cases hk : k < 0
  · have : k * ((2 ^ 1074 : Nat) : Int) < 0 := Int.mul_neg_of_neg_of_pos hk hS
    simp only [this, decide_True, if_true]
    rw [Int.ofNat_mul k.natAbs (2 ^ 1074)]
    rw [Int.ofNat_natAbs_of_nonpos (Int.le_of_lt hk)]
    ring
  · have hk0 : 0 ≤ k := Int.not_lt.mp hk
    have : ¬ k * ((2 ^ 1074 : Nat) : Int) < 0 := by
      have := Int.mul_nonneg hk0 (Int.le_of_lt hS)
      omega
    simp only [this, decide_False]
    rw [Int.ofNat_mul k.natAbs (2 ^ 1074)]
    rw [Int.natAbs_of_nonneg hk0]
    simp only [Bool.false_eq_true, if_false]

theorem add_int (a b : Int) (h : (a + b).natAbs ≤ 2 ^ 53) :
    add (int a) (int b) = int (a + b) := by
  rw [← ofInt_eq_int _ h]
  simp only [int, add, ofInt]
  congr 1
  ring

theorem neg_int (a : Int) : neg (int a) = int (-a) := by
  simp only [int, neg]
  congr 1
  ring

theorem sub_int (a b : Int) (h : (a - b).natAbs ≤ 2 ^ 53) :
    sub (int a) (int b) = int (a - b) := by
  rw [sub, neg_int, add_int _ _ (by simpa [Int.sub_eq_add_neg] using h), Int.sub_eq_add_neg]

theorem zero_eq_int : zero = int 0 := by
  rw [zero, int, Int.zero_mul]

theorem incr_int (n : Nat) (h : n < 2 ^ 53) : incr (int (n : Int)) = int ((n + 1 : Nat) : Int) := by
  have h1 : ofNat 1 = int 1 := ofInt_eq_int 1 (by decide)
  have h2 : ((n : Int) + 1).natAbs ≤ 2 ^ 53 := by
    have : ((n : Int) + 1).natAbs = n + 1 := by omega
    omega
  rw [incr, h1, add_int _ _ h2]
  rfl

end F64

/-! ## `ParseFloat` on a run of digits -/

theorem isDigit_bounds (c : Char) (h : isDigit c = true) : 48 ≤ c.toNat ∧ c.toNat ≤ 57 := by
  simpa [isDigit] using h

theorem ne_of_isDigit (c d : Char) (h : isDigit c = true) (hd : isDigit d = false) : c ≠ d := by
  rintro rfl
  rw [h] at hd
  exact Bool.noConfusion hd

theorem lowerASCII_of_isDigit (c : Char) (h : isDigit c = true) : lowerASCII c = c := by
  have hb := isDigit_bounds c h
  have : ¬ (65 ≤ c.toNat ∧ c.toNat ≤ 90) := by omega
  simp [lowerASCII, this]

theorem special_of_isDigit (c : Char) (rest : Str) (h : isDigit c = true) :
    special (c :: rest) = none := by
  have h1 := ne_of_isDigit c '+' h (by decide)
  have h2 := ne_of_isDigit c '-' h (by decide)
  have h3 := ne_of_isDigit c 'i' h (by decide)
  have h4 := ne_of_isDigit c 'I' h (by decide)
  have h5 := ne_of_isDigit c 'n' h (by decide)
  have h6 := ne_of_isDigit c 'N' h (by decide)
  simp [special, h1, h2, h3, h4, h5, h6]

theorem readMantissa_digits (ds : Str) (hds : ∀ c ∈ ds, isDigit c = true) :
    ∀ m : Mantissa, m.sawdot = false →
      readMantissa false ds m =
        (⟨ds.foldl (fun v c => v * 10 + digitVal c) m.digits, m.frac, false,
          m.sawdigits || !ds.isEmpty⟩, []) := by
  induction ds with
  | nil =>
    intro m hm
    cases m
    simp_all [readMantissa]
  | cons c cs ih =>
    intro m hm
    have hc : isDigit c = true := hds c (List.mem_cons_self _ _)
    have h1 := ne_of_isDigit c '_' hc (by decide)
    have h2 := ne_of_isDigit c '.' hc (by decide)
    have hcs : ∀ d ∈ cs, isDigit d = true := fun d hd => hds d (List.mem_cons_of_mem _ hd)
    simp only [readMantissa, h1, h2, hc, if_true, if_false]
    rw [ih hcs _ (by simp [Mantissa.push, hm])]
    simp [Mantissa.push, hm]

theorem underscoreStep_digits (hex : Bool) (ds : Str) (hds : ∀ c ∈ ds, isDigit c = true) :
    ∀ saw : Char, saw ≠ '_' → underscoreStep hex saw ds = true := by
  induction ds with
  | nil =>
    intro saw hsaw
    simpa [underscoreStep] using hsaw
  | cons c cs ih =>
    intro saw _
    have hc : isDigit c = true := hds c (List.mem_cons_self _ _)
    simp only [underscoreStep, hc, Bool.true_or, if_true]
    exact ih (fun d hd => hds d (List.mem_cons_of_mem _ hd)) '0' (by decide)

theorem underscoreOK_digits (ds : Str) (hds : ∀ c ∈ ds, isDigit c = true) :
    underscoreOK ds = true := by
  cases ds with
  | nil => simp [underscoreOK, underscoreStep]
  | cons c t =>
    have hc : isDigit c = true := hds c (List.mem_cons_self _ _)
    have h1 := ne_of_isDigit c '-' hc (by decide)
    have h2 := ne_of_isDigit c '+' hc (by decide)
    cases t with
    | nil =>
      simp only [underscoreOK, h1, h2, or_self, if_false]
      exact underscoreStep_digits false _ hds _ (by decide)
    | cons d t =>
      have hd : isDigit d = true := hds d (by simp)
      have hl := lowerASCII_of_isDigit d hd
      have h3 := ne_of_isDigit d 'b' hd (by decide)
      have h4 := ne_of_isDigit d 'o' hd (by decide)
      have h5 := ne_of_isDigit d 'x' hd (by decide)
      simp only [underscoreOK, h1, h2, hl, h3, h4, h5, or_self, and_false, if_false]
      exact underscoreStep_digits false _ hds _ (by decide)

theorem readSign_of_isDigit (c : Char) (t : Str) (h : isDigit c = true) :
    readSign (c :: t) = (false, c :: t) := by
  have h1 := ne_of_isDigit c '-' h (by decide)
  have h2 := ne_of_isDigit c '+' h (by decide)
  simp [readSign, h1, h2]

theorem hasHexPrefix_digits (ds : Str) (hds : ∀ c ∈ ds, isDigit c = true) :
    hasHexPrefix ds = false := by
  match ds with
  | [] => rfl
  | [_] => rfl
  | [_, _] => rfl
  | c :: d :: e :: t =>
    have hd : isDigit d = true := hds d (by simp)
    have hl := lowerASCII_of_isDigit d hd
    have h5 := ne_of_isDigit d 'x' hd (by decide)
    simp [hasHexPrefix, hl, h5]

theorem floatOfParts_nat (v : Nat) :
    floatOfParts false false ⟨v, 0, false, true⟩ 0 = F64.ofInt (v : Int) := by
  have hnn : ¬ (v : Int) * ((2 ^ 1074 : Nat) : Int) < 0 := by
    have := Int.mul_nonneg (Int.ofNat_nonneg v) (Int.ofNat_nonneg (2 ^ 1074))
    omega
  have habs : ((v : Int) * ((2 ^ 1074 : Nat) : Int)).natAbs = v * 2 ^ 1074 := by
    rw [Int.natAbs_mul, Int.natAbs_ofNat, Int.natAbs_ofNat]
  simp only [floatOfParts, F64.ofInt, F64.round, hnn, habs, decide_False, Int.natAbs_zero,
    Bool.false_eq_true, if_false, Nat.pow_zero, Nat.mul_one, le_refl, if_true]

theorem readFloat_digits (n : Str) (hne : n ≠ []) (hds : ∀ c ∈ n, isDigit c = true) :
    readFloat n = some (F64.ofInt (decimalValue n), []) := by
  cases n with
  | nil => exact absurd rfl hne
  | cons c t =>
    have hc : isDigit c = true := hds c (List.mem_cons_self _ _)
    have hm : readMantissa false (c :: t) ⟨0, 0, false, false⟩
        = (⟨decimalValue (c :: t), 0, false, true⟩, []) := by
      rw [readMantissa_digits (c :: t) hds ⟨0, 0, false, false⟩ rfl]
      simp [decimalValue]
    simp only [readFloat, readSign_of_isDigit c t hc, hasHexPrefix_digits (c :: t) hds]
    simp only [Bool.false_eq_true, if_false]
    rw [hm]
    simp [floatOfParts_nat]

/-- Known conversions: integers, a fraction (`0.1` is `0x1.999999999999ap-4`), exponents,
the halfway case `2^53 + 1`, the largest and the smallest positive value, overflow, a
hexadecimal literal, underscores, the infinities and NaN, and text that is no literal. -/
theorem ParseFloat_examples :
    ParseFloat "4".toList = F64.int 4 ∧
      ParseFloat "0.1".toList = F64.fin (0x1999999999999a * 2 ^ 1018) ∧
      ParseFloat "4.5".toList = F64.fin (9 * 2 ^ 1073) ∧
      ParseFloat "1e3".toList = F64.int 1000 ∧
      ParseFloat "9007199254740993".toList = F64.int 9007199254740992 ∧
      ParseFloat "1.7976931348623157e308".toList = F64.fin ((2 ^ 53 - 1) * 2 ^ 2045) ∧
      ParseFloat "5e-324".toList = F64.fin 1 ∧
      ParseFloat "1e400".toList = F64.inf false ∧
      ParseFloat "0x1p4".toList = F64.int 16 ∧
      ParseFloat "1_0".toList = F64.int 10 ∧
      ParseFloat "-3".toList = F64.int (-3) ∧
      ParseFloat "-Inf".toList = F64.inf true ∧
      ParseFloat "nan".toList = F64.nan ∧
      ParseFloat "0x10".toList = F64.zero ∧
      ParseFloat "4(S".toList = F64.zero ∧
      ParseFloat "tesla".toList = F64.zero ∧
      ParseFloat "".toList = F64.zero := by
  decide!

/-- On a non-empty run of decimal digits `ParseFloat` is the binary64 value nearest to the
number the digits denote. -/
theorem ParseFloat_digits (n : Str) (hne : n ≠ []) (hds : ∀ c ∈ n, isDigit c = true) :
    ParseFloat n = F64.ofInt (decimalValue n) := by
  have hs : special n = none := by
    cases n with
    | nil => exact absurd rfl hne
    | cons c t => exact special_of_isDigit c t (hds c (List.mem_cons_self _ _))
  simp [ParseFloat, hs, readFloat_digits n hne hds, underscoreOK_digits n hds]

/-- Within the range where every integer is a binary64 number, `ParseFloat` of a digit run is
exactly the number the digits denote. -/
theorem ParseFloat_digits_exact (n : Str) (hne : n ≠ []) (hds : ∀ c ∈ n, isDigit c = true)
    (hex : decimalValue n ≤ 2 ^ 53) : ParseFloat n = F64.int (decimalValue n) := by
  rw [ParseFloat_digits n hne hds]
  exact F64.ofInt_eq_int _ (by simpa using hex)

/-! ## The pattern `gpuGresPattern` -/

theorem gpuPrefix_eq : "gpu:".toList = ['g', 'p', 'u', ':'] := rfl

theorem HasPrefix_gpu_append (r : Str) : HasPrefix ("gpu:".toList ++ r) "gpu:".toList = true := by
  simp [HasPrefix, gpuPrefix_eq, List.isPrefixOf]

theorem drop_gpu_append (r : Str) : ("gpu:".toList ++ r).drop 4 = r := by
  simp [gpuPrefix_eq]

theorem takeWhile_append_of_forall (p : Char → Bool) (t r : Str) (ht : ∀ c ∈ t, p c = true)
    (hr : ∀ c ∈ r.head?, p c = false) : (t ++ r).takeWhile p = t := by
  induction t with
  | nil =>
    cases r with
    | nil => rfl
    | cons c r =>
      have : p c = false := hr c (by simp)
      simp [List.takeWhile_cons, this]
  | cons c t ih =>
    have hc : p c = true := ht c (List.mem_cons_self _ _)
    simp [List.takeWhile_cons, hc, ih (fun d hd => ht d (List.mem_cons_of_mem _ hd))]

theorem dropWhile_append_of_forall (p : Char → Bool) (t r : Str) (ht : ∀ c ∈ t, p c = true)
    (hr : ∀ c ∈ r.head?, p c = false) : (t ++ r).dropWhile p = r := by
  induction t with
  | nil =>
    cases r with
    | nil => rfl
    | cons c r =>
      have : p c = false := hr c (by simp)
      simp [List.dropWhile_cons, this]
  | cons c t ih =>
    have hc : p c = true := ht c (List.mem_cons_self _ _)
    simp [List.dropWhile_cons, hc, ih (fun d hd => ht d (List.mem_cons_of_mem _ hd))]

theorem notColon_of_not_mem (t : Str) (h : ':' ∉ t) : ∀ c ∈ t, (c != ':') = true := by
  intro c hc
  have : c ≠ ':' := fun e => h (e ▸ hc)
  simpa using this

theorem isEmpty_eq_false_of_ne_nil (t : Str) (ht : t ≠ []) : t.isEmpty = false := by
  cases t with
  | nil => exact absurd rfl ht
  | cons _ _ => rfl

/-- The match of an element `gpu:<subtype>:<count><rest>`. -/
theorem FindStringSubmatch_typed (t n s : Str) (ht : t ≠ []) (htc : ':' ∉ t)
    (hnd : ∀ c ∈ n, isDigit c = true) (hsd : ∀ c ∈ s.head?, isDigit c = false) :
    gpuGresPattern.FindStringSubmatch ("gpu:".toList ++ (t ++ ':' :: (n ++ s)))
      = ["gpu:".toList ++ t ++ [':'] ++ n, t, n] := by
  have h1 : (t ++ ':' :: (n ++ s)).takeWhile (fun c => c != ':') = t :=
    takeWhile_append_of_forall _ t _ (notColon_of_not_mem t htc) (by simp)
  have h2 : (t ++ ':' :: (n ++ s)).dropWhile (fun c => c != ':') = ':' :: (n ++ s) :=
    dropWhile_append_of_forall _ t _ (notColon_of_not_mem t htc) (by simp)
  have h3 : (n ++ s).takeWhile isDigit = n := takeWhile_append_of_forall _ n s hnd hsd
  simp only [gpuGresPattern.FindStringSubmatch, HasPrefix_gpu_append, drop_gpu_append, if_true,
    h1, h2, isEmpty_eq_false_of_ne_nil t ht, Bool.false_eq_true, if_false,
    List.length_singleton, List.drop_one, List.tail_cons, h3]

/-- The match of an element `gpu:<run>` with no further colon. -/
theorem FindStringSubmatch_untyped (t : Str) (ht : t ≠ []) (htc : ':' ∉ t) :
    gpuGresPattern.FindStringSubmatch ("gpu:".toList ++ t) = ["gpu:".toList ++ t, t, []] := by
  have h1 : t.takeWhile (fun c => c != ':') = t := by
    simpa using takeWhile_append_of_forall _ t [] (notColon_of_not_mem t htc) (by simp)
  have h2 : t.dropWhile (fun c => c != ':') = [] := by
    simpa using dropWhile_append_of_forall _ t [] (notColon_of_not_mem t htc) (by simp)
  simp only [gpuGresPattern.FindStringSubmatch, HasPrefix_gpu_append, drop_gpu_append, if_true,
    h1, h2, isEmpty_eq_false_of_ne_nil t ht, Bool.false_eq_true, if_false, List.length_nil,
    List.drop_zero, List.takeWhile_nil, List.append_nil]

theorem parseGRESBody_typed (value : F64) (t n s : Str) (ht : t ≠ []) (htc : ':' ∉ t)
    (hn : n ≠ []) (hnd : ∀ c ∈ n, isDigit c = true) (hsd : ∀ c ∈ s.head?, isDigit c = false) :
    parseGRESBody value ("gpu:".toList ++ (t ++ ':' :: (n ++ s))) = ParseFloat n := by
  simp only [parseGRESBody, HasPrefix_gpu_append, Bool.not_true, Bool.false_eq_true, if_false,
    FindStringSubmatch_typed t n s ht htc hnd hsd, List.length_cons, List.length_nil,
    List.getD_cons_succ, List.getD_cons_zero, ne_eq, hn, not_false_eq_true, if_true]

theorem parseGRESBody_untyped (value : F64) (t : Str) (ht : t ≠ []) (htc : ':' ∉ t) :
    parseGRESBody value ("gpu:".toList ++ t) = ParseFloat t := by
  simp only [parseGRESBody, HasPrefix_gpu_append, Bool.not_true, Bool.false_eq_true, if_false,
    FindStringSubmatch_untyped t ht htc, List.length_cons, List.length_nil,
    List.getD_cons_succ, List.getD_cons_zero, ne_eq, not_true_eq_false, if_true]

theorem parseGRES_of_not_mem (g : Str) (h : ',' ∉ g) :
    parseGRES g = parseGRESBody F64.zero g := by
  simp [parseGRES, Split_of_not_mem g ',' h]

theorem parseGRES_append_comma (s e : Str) (h : ',' ∉ e) :
    parseGRES (s ++ ',' :: e) = parseGRESBody (parseGRES s) e := by
  simp [parseGRES, Split_append_sep, Split_of_not_mem e ',' h, List.foldl_append]

theorem not_mem_of_isDigit (n : Str) (hn : ∀ c ∈ n, isDigit c = true) (d : Char)
    (hd : isDigit d = false) : d ∉ n := by
  intro hm
  rw [hn d hm] at hd
  exact Bool.noConfusion hd

theorem foldl_parseGRESBody_of_no_gpu (l : List Str)
    (h : ∀ g ∈ l, HasPrefix g "gpu:".toList = false) (value : F64) :
    l.foldl parseGRESBody value = value := by
  induction l generalizing value with
  | nil => rfl
  | cons g l ih =>
    have hg : HasPrefix g "gpu:".toList = false := h g (List.mem_cons_self _ _)
    have hb : parseGRESBody value g = value := by
      simp only [parseGRESBody, hg, Bool.not_false, if_true]
    rw [List.foldl_cons, hb]
    exact ih (fun g' hg' => h g' (List.mem_cons_of_mem _ hg')) value

theorem colon_eq : ":".toList = [':'] := rfl

theorem comma_eq : ",".toList = [','] := rfl

/-! ## Claims on `parseGRES` -/

/-- C5: for a non-empty subtype `t` without `:` and `,`, a non-empty run of digits `n` that
denotes a number of at most `2^53` (the range in which every integer is a binary64 number)
and a suffix `s` without `,` that does not begin with a digit,
`parseGRES("gpu:" + t + ":" + n + s)` is exactly the number that `n` denotes. -/
theorem parseGRES_typed_count (t n s : Str) (ht : t ≠ []) (htc : ':' ∉ t) (htk : ',' ∉ t)
    (hn : n ≠ []) (hnd : ∀ c ∈ n, isDigit c = true) (hex : decimalValue n ≤ 2 ^ 53)
    (hsk : ',' ∉ s) (hsd : ∀ c ∈ s.head?, isDigit c = false) :
    parseGRES ("gpu:".toList ++ t ++ ":".toList ++ n ++ s) = F64.int (decimalValue n) := by
  have hshape : "gpu:".toList ++ t ++ ":".toList ++ n ++ s
      = "gpu:".toList ++ (t ++ ':' :: (n ++ s)) := by
    simp only [colon_eq, List.append_assoc, List.singleton_append, List.cons_append,
      List.nil_append]
  have hnk : ',' ∉ n := not_mem_of_isDigit n hnd ',' (by decide)
  have hk : ',' ∉ "gpu:".toList ++ (t ++ ':' :: (n ++ s)) := by
    simp only [gpuPrefix_eq, List.mem_append, List.mem_cons, not_or]
    refine ⟨?_, htk, by decide, hnk, hsk⟩
    decide
  rw [hshape, parseGRES_of_not_mem _ hk, parseGRESBody_typed _ t n s ht htc hn hnd hsd]
  exact ParseFloat_digits_exact n hn hnd hex

/-- C5 at `gpu:tesla:4`, alone and followed by `(S:0-1)`: both give 4. -/
theorem parseGRES_typed_count_witness :
    parseGRES "gpu:tesla:4".toList = F64.int 4 ∧
      parseGRES "gpu:tesla:4(S:0-1)".toList = F64.int 4 :=
  ⟨parseGRES_typed_count "tesla".toList "4".toList [] (by decide) (by decide) (by decide)
      (by decide) (by decide) (by decide) (by decide) (by simp),
   parseGRES_typed_count "tesla".toList "4".toList "(S:0-1)".toList (by decide) (by decide)
      (by decide) (by decide) (by decide) (by decide) (by decide) (by decide)⟩

/-- C6: for a non-empty run of digits `n` that denotes a number of at most `2^53`,
`parseGRES("gpu:" + n)` is exactly the number that `n` denotes: the run is captured in the
subtype position, the count capture is empty, and the subtype capture is parsed. -/
theorem parseGRES_untyped_count (n : Str) (hn : n ≠ []) (hnd : ∀ c ∈ n, isDigit c = true)
    (hex : decimalValue n ≤ 2 ^ 53) :
    parseGRES ("gpu:".toList ++ n) = F64.int (decimalValue n) ∧
      gpuGresPattern.FindStringSubmatch ("gpu:".toList ++ n) = ["gpu:".toList ++ n, n, []] := by
  have hnc : ':' ∉ n := not_mem_of_isDigit n hnd ':' (by decide)
  have hnk : ',' ∉ n := not_mem_of_isDigit n hnd ',' (by decide)
  have hk : ',' ∉ "gpu:".toList ++ n := by
    simp only [gpuPrefix_eq, List.mem_append, not_or]
    exact ⟨by decide, hnk⟩
  refine ⟨?_, FindStringSubmatch_untyped n hn hnc⟩
  rw [parseGRES_of_not_mem _ hk, parseGRESBody_untyped _ n hn hnc]
  exact ParseFloat_digits_exact n hn hnd hex

/-- C6 at `gpu:4` and `gpu:0`. -/
theorem parseGRES_untyped_count_witness :
    parseGRES "gpu:4".toList = F64.int 4 ∧ parseGRES "gpu:0".toList = F64.int 0 :=
  ⟨(parseGRES_untyped_count "4".toList (by decide) (by decide) (by decide)).1,
   (parseGRES_untyped_count "0".toList (by decide) (by decide) (by decide)).1⟩

/-- C7, as stated, fails: after `gpu:a:1,` the element `gpu:9007199254740993` gives
`9007199254740992`, the binary64 value nearest to `2^53 + 1`, not the number the digits
denote. -/
theorem parseGRES_last_not_exact :
    parseGRES ("gpu:a:1".toList ++ ",".toList ++ ("gpu:".toList ++ "9007199254740993".toList))
        = F64.int 9007199254740992 ∧
      parseGRES ("gpu:a:1".toList ++ ",".toList ++ ("gpu:".toList ++ "9007199254740993".toList))
        ≠ F64.int (decimalValue "9007199254740993".toList) := by
  decide!

/-- C7, amended: the last element wins and nothing is summed.  For every spec `s` and every
element `e` of the form `gpu:<t>:<n>` or `gpu:<n>` (`t` a non-empty subtype without `:` and
`,`, `n` a non-empty run of digits), `parseGRES(s + "," + e)` is the binary64 value nearest to
the number `n` denotes, whatever `s` is; it is that number exactly when it is at most
`2^53`. -/
theorem parseGRES_last_wins (s e t n : Str) (hn : n ≠ []) (hnd : ∀ c ∈ n, isDigit c = true)
    (he : (e = "gpu:".toList ++ t ++ ":".toList ++ n ∧ t ≠ [] ∧ ':' ∉ t ∧ ',' ∉ t) ∨
      e = "gpu:".toList ++ n) :
    parseGRES (s ++ ",".toList ++ e) = F64.ofInt (decimalValue n) ∧
      (decimalValue n ≤ 2 ^ 53 → parseGRES (s ++ ",".toList ++ e) = F64.int (decimalValue n)) := by
  have hnc : ':' ∉ n := not_mem_of_isDigit n hnd ':' (by decide)
  have hnk : ',' ∉ n := not_mem_of_isDigit n hnd ',' (by decide)
  have hshape : s ++ ",".toList ++ e = s ++ ',' :: e := by
    simp only [comma_eq, List.append_assoc, List.singleton_append]
  have key : parseGRES (s ++ ",".toList ++ e) = F64.ofInt (decimalValue n) := by
    rcases he with ⟨rfl, ht, htc, htk⟩ | rfl
    · have hsh : "gpu:".toList ++ t ++ ":".toList ++ n
          = "gpu:".toList ++ (t ++ ':' :: (n ++ [])) := by
        simp only [colon_eq, List.append_assoc, List.singleton_append, List.append_nil]
      have hk : ',' ∉ "gpu:".toList ++ (t ++ ':' :: (n ++ [])) := by
        simp only [gpuPrefix_eq, List.mem_append, List.mem_cons, not_or]
        refine ⟨?_, htk, by decide, hnk, by simp⟩
        decide
      rw [hshape, hsh, parseGRES_append_comma _ _ hk,
        parseGRESBody_typed _ t n [] ht htc hn hnd (by simp)]
      exact ParseFloat_digits n hn hnd
    · have hk : ',' ∉ "gpu:".toList ++ n := by
        simp only [gpuPrefix_eq, List.mem_append, not_or]
        exact ⟨by decide, hnk⟩
      rw [hshape, parseGRES_append_comma _ _ hk, parseGRESBody_untyped _ n hn hnc]
      exact ParseFloat_digits n hn hnd
  refine ⟨key, fun hex => ?_⟩
  rw [key]
  exact F64.ofInt_eq_int _ (by simpa using hex)

/-- C7, amended, at `gpu:a:1,gpu:b:3` (3, not 4) and `cpu:10,gpu:2` (2). -/
theorem parseGRES_last_wins_witness :
    parseGRES "gpu:a:1,gpu:b:3".toList = F64.int 3 ∧ parseGRES "cpu:10,gpu:2".toList = F64.int 2 :=
  ⟨(parseGRES_last_wins "gpu:a:1".toList "gpu:b:3".toList "b".toList "3".toList (by decide)
      (by decide) (Or.inl (by decide))).2 (by decide),
   (parseGRES_last_wins "cpu:10".toList "gpu:2".toList [] "2".toList (by decide)
      (by decide) (Or.inr (by decide))).2 (by decide)⟩

/-- C8: a spec none of whose comma-separated elements begins with `gpu:` gives 0. -/
theorem parseGRES_no_gpu (line : Str)
    (h : ∀ g ∈ Split line ',', HasPrefix g "gpu:".toList = false) :
    parseGRES line = F64.zero :=
  foldl_parseGRESBody_of_no_gpu _ h F64.zero

/-- C8 at the empty string, at the bare element `gpu` and at `cpu:10`. -/
theorem parseGRES_no_gpu_witness :
    parseGRES "".toList = F64.zero ∧ parseGRES "gpu".toList = F64.zero ∧
      parseGRES "cpu:10".toList = F64.zero :=
  ⟨parseGRES_no_gpu "".toList (by decide), parseGRES_no_gpu "gpu".toList (by decide),
   parseGRES_no_gpu "cpu:10".toList (by decide)⟩

/-! ## The loop of `ParseGPUsMetrics` -/

theorem gpusLoopBody_of_not_three (st : GPUsLoop) (l : Str) (h : hasThreeFields l = false) :
    gpusLoopBody st l = st := by
  have hlen : (Fields l).length ≠ 3 := by simpa [hasThreeFields] using h
  simp only [gpusLoopBody, hlen, ne_eq, not_false_eq_true, if_true]

theorem gpusLoopBody_of_seen (st : GPUsLoop) (l : Str) (h : field l 0 ∈ st.seen) :
    gpusLoopBody st l = st := by
  simp only [field] at h
  simp only [gpusLoopBody, h, if_true, ite_self]

theorem gpusLoopBody_of_new (st : GPUsLoop) (l : Str) (h3 : hasThreeFields l = true)
    (h : field l 0 ∉ st.seen) :
    gpusLoopBody st l =
      { gm := { alloc := st.gm.alloc.add (usedOf l),
                total := st.gm.total.add (availOf l),
                idle := st.gm.idle.add ((availOf l).sub (usedOf l)) },
        seen := field l 0 :: st.seen } := by
  have hlen : (Fields l).length = 3 := by simpa [hasThreeFields] using h3
  simp only [field] at h
  simp only [gpusLoopBody, hlen, h, ne_eq, not_true_eq_false, if_false, availOf, usedOf, field]

theorem hasThreeFields_nil : hasThreeFields [] = false := by decide

theorem gpusLoop_joinLines (ls : List Str) (h : ∀ l ∈ ls, '\n' ∉ l) :
    gpusLoop (joinLines ls) = ls.foldl gpusLoopBody GPUsLoop.init := by
  by_cases hne : ls = []
  · subst hne
    show gpusLoopBody GPUsLoop.init [] = GPUsLoop.init
    exact gpusLoopBody_of_not_three _ _ hasThreeFields_nil
  · rw [gpusLoop, Split_joinLines ls hne h]

/-- Every first field of a three-field line among the lines read is in the map afterwards. -/
theorem mem_seen_foldl (ls : List Str) :
    ∀ st : GPUsLoop, (∀ h ∈ st.seen, h ∈ (ls.foldl gpusLoopBody st).seen) ∧
      ∀ l ∈ ls, hasThreeFields l = true → field l 0 ∈ (ls.foldl gpusLoopBody st).seen := by
  induction ls with
  | nil =>
    intro st
    exact ⟨fun h hh => hh, fun l hl => absurd hl (List.not_mem_nil l)⟩
  | cons x xs ih =>
    intro st
    have hmono : ∀ h ∈ st.seen, h ∈ (gpusLoopBody st x).seen := by
      intro h hh
      by_cases h3 : hasThreeFields x = true
      · by_cases hs : field x 0 ∈ st.seen
        · rw [gpusLoopBody_of_seen st x hs]; exact hh
        · rw [gpusLoopBody_of_new st x h3 hs]; exact List.mem_cons_of_mem _ hh
      · rw [gpusLoopBody_of_not_three st x (by simpa using h3)]; exact hh
    have hx : hasThreeFields x = true → field x 0 ∈ (gpusLoopBody st x).seen := by
      intro h3
      by_cases hs : field x 0 ∈ st.seen
      · rw [gpusLoopBody_of_seen st x hs]; exact hs
      · rw [gpusLoopBody_of_new st x h3 hs]; exact List.mem_cons_self _ _
    obtain ⟨ih1, ih2⟩ := ih (gpusLoopBody st x)
    refine ⟨fun h hh => ih1 h (hmono h hh), ?_⟩
    intro l hl h3
    rcases List.mem_cons.mp hl with rfl | hl'
    · exact ih1 _ (hx h3)
    · exact ih2 l hl' h3

/-- A line with another field count than three, or whose first field is already in the map,
leaves the variables of the loop as they are; so leaving it out changes nothing. -/
theorem foldl_gpus_insert (pre post : List Str) (L : Str) (st : GPUsLoop)
    (h : gpusLoopBody (pre.foldl gpusLoopBody st) L = pre.foldl gpusLoopBody st) :
    (pre ++ L :: post).foldl gpusLoopBody st = (pre ++ post).foldl gpusLoopBody st := by
  rw [List.foldl_append, List.foldl_cons, h, List.foldl_append]

theorem not_mem_joined (pre post : List Str) (L : Str) (hpre : ∀ l ∈ pre, '\n' ∉ l)
    (hpost : ∀ l ∈ post, '\n' ∉ l) (hL : '\n' ∉ L) :
    (∀ l ∈ pre ++ L :: post, '\n' ∉ l) ∧ (∀ l ∈ pre ++ post, '\n' ∉ l) := by
  constructor
  · intro l hl
    rcases List.mem_append.mp hl with h | h
    · exact hpre l h
    · rcases List.mem_cons.mp h with rfl | h
      · exact hL
      · exact hpost l h
  · intro l hl
    rcases List.mem_append.mp hl with h | h
    · exact hpre l h
    · exact hpost l h

/-- The map holds exactly the first fields of the three-field lines read so far. -/
theorem isCounted_iff (earlier : List Str) (st : GPUsLoop) (l : Str)
    (hinv : ∀ h, h ∈ st.seen ↔ ∃ e ∈ earlier, hasThreeFields e = true ∧ field e 0 = h) :
    isCounted earlier l = true ↔ hasThreeFields l = true ∧ field l 0 ∉ st.seen := by
  simp only [isCounted, Bool.and_eq_true, List.all_eq_true, Bool.not_eq_true', Bool.and_eq_false_imp,
    beq_eq_false_iff_ne, ne_eq, hinv]
  constructor
  · rintro ⟨h3, hall⟩
    refine ⟨h3, ?_⟩
    rintro ⟨e, he, he3, heq⟩
    exact hall e he he3 heq
  · rintro ⟨h3, hno⟩
    exact ⟨h3, fun e he he3 heq => hno ⟨e, he, he3, heq⟩⟩

theorem seen_invariant_step (earlier : List Str) (st : GPUsLoop) (x : Str)
    (hinv : ∀ h, h ∈ st.seen ↔ ∃ e ∈ earlier, hasThreeFields e = true ∧ field e 0 = h) :
    ∀ h, h ∈ (gpusLoopBody st x).seen ↔
      ∃ e ∈ earlier ++ [x], hasThreeFields e = true ∧ field e 0 = h := by
  intro h
  by_cases h3 : hasThreeFields x = true
  · by_cases hs : field x 0 ∈ st.seen
    · rw [gpusLoopBody_of_seen st x hs, hinv]
      constructor
      · rintro ⟨e, he, he3, heq⟩
        exact ⟨e, List.mem_append_left _ he, he3, heq⟩
      · rintro ⟨e, he, he3, heq⟩
        rcases List.mem_append.mp he with he | he
        · exact ⟨e, he, he3, heq⟩
        · have hex : e = x := by simpa using he
          subst hex
          rw [← heq]
          exact (hinv _).mp hs
    · rw [gpusLoopBody_of_new st x h3 hs]
      simp only [List.mem_cons, hinv]
      constructor
      · rintro (rfl | ⟨e, he, he3, heq⟩)
        · exact ⟨x, by simp, h3, rfl⟩
        · exact ⟨e, List.mem_append_left _ he, he3, heq⟩
      · rintro ⟨e, he, he3, heq⟩
        rcases List.mem_append.mp he with he | he
        · exact Or.inr ⟨e, he, he3, heq⟩
        · have hex : e = x := by simpa using he
          subst hex
          exact Or.inl heq.symm
  · have h3' : hasThreeFields x = false := by simpa using h3
    rw [gpusLoopBody_of_not_three st x h3', hinv]
    constructor
    · rintro ⟨e, he, he3, heq⟩
      exact ⟨e, List.mem_append_left _ he, he3, heq⟩
    · rintro ⟨e, he, he3, heq⟩
      rcases List.mem_append.mp he with he | he
      · exact ⟨e, he, he3, heq⟩
      · have hex : e = x := by simpa using he
        subst hex
        exact absurd he3 h3

/-- The loop adds to the three counters the values of the counted lines, in their order. -/
theorem foldl_gpus_counted (ls : List Str) :
    ∀ (earlier : List Str) (st : GPUsLoop),
      (∀ h, h ∈ st.seen ↔ ∃ e ∈ earlier, hasThreeFields e = true ∧ field e 0 = h) →
      (ls.foldl gpusLoopBody st).gm.total
          = ((countedFrom earlier ls).map availOf).foldl F64.add st.gm.total ∧
        (ls.foldl gpusLoopBody st).gm.alloc
          = ((countedFrom earlier ls).map usedOf).foldl F64.add st.gm.alloc ∧
        (ls.foldl gpusLoopBody st).gm.idle
          = ((countedFrom earlier ls).map fun l => (availOf l).sub (usedOf l)).foldl
              F64.add st.gm.idle := by
  induction ls with
  | nil =>
    intro earlier st _
    exact ⟨rfl, rfl, rfl⟩
  | cons x xs ih =>
    intro earlier st hinv
    have hnext := ih (earlier ++ [x]) (gpusLoopBody st x) (seen_invariant_step earlier st x hinv)
    have hc := isCounted_iff earlier st x hinv
    by_cases hcnt : isCounted earlier x = true
    · obtain ⟨h3, hs⟩ := hc.mp hcnt
      simp only [List.foldl_cons, countedFrom, hcnt, if_true, List.map_cons]
      rw [gpusLoopBody_of_new st x h3 hs] at hnext ⊢
      exact hnext
    · have hbody : gpusLoopBody st x = st := by
        by_cases h3 : hasThreeFields x = true
        · have hs : field x 0 ∈ st.seen := by
            by_contra hs
            exact hcnt (hc.mpr ⟨h3, hs⟩)
          exact gpusLoopBody_of_seen st x hs
        · exact gpusLoopBody_of_not_three st x (by simpa using h3)
      simp only [List.foldl_cons, countedFrom, hcnt, if_false, Bool.false_eq_true]
      rw [hbody] at hnext ⊢
      exact hnext

theorem ParseGPUsMetrics_counted (input : Str) :
    (ParseGPUsMetrics input).total = F64.sum ((countedLines input).map availOf) ∧
      (ParseGPUsMetrics input).alloc = F64.sum ((countedLines input).map usedOf) ∧
      (ParseGPUsMetrics input).idle
        = F64.sum ((countedLines input).map fun l => (availOf l).sub (usedOf l)) :=
  foldl_gpus_counted (Split input '\n') [] GPUsLoop.init (by simp [GPUsLoop.init])

/-- Sums of integer values stay exact while they stay within `2^53`: from the running sums
`A` and `U`, the loop reaches the integer sums over the lines `cs`. -/
theorem foldl_int_sums (a u : Str → Nat) (cs : List Str) :
    ∀ A U : Nat,
      (∀ l ∈ cs, availOf l = F64.int (a l) ∧ usedOf l = F64.int (u l)) →
      A + (cs.map a).sum ≤ 2 ^ 53 → U + (cs.map u).sum ≤ 2 ^ 53 →
      (cs.map availOf).foldl F64.add (F64.int A) = F64.int ((A + (cs.map a).sum : Nat) : Int) ∧
        (cs.map usedOf).foldl F64.add (F64.int U) = F64.int ((U + (cs.map u).sum : Nat) : Int) ∧
        (cs.map fun l => (availOf l).sub (usedOf l)).foldl F64.add (F64.int ((A : Int) - U))
          = F64.int (((A + (cs.map a).sum : Nat) : Int) - ((U + (cs.map u).sum : Nat) : Int)) := by
  induction cs with
  | nil =>
    intro A U _ _ _
    simp
  | cons x xs ih =>
    intro A U hval hA hU
    obtain ⟨hax, hux⟩ := hval x (List.mem_cons_self _ _)
    simp only [List.map_cons, List.sum_cons] at hA hU
    have hrec := ih (A + a x) (U + u x) (fun l hl => hval l (List.mem_cons_of_mem _ hl))
      (by omega) (by omega)
    have e1 : F64.add (F64.int A) (F64.int (a x)) = F64.int ((A + a x : Nat) : Int) := by
      rw [F64.add_int _ _ (by omega)]
      simp
    have e2 : F64.add (F64.int U) (F64.int (u x)) = F64.int ((U + u x : Nat) : Int) := by
      rw [F64.add_int _ _ (by omega)]
      simp
    have e3 : F64.add (F64.int ((A : Int) - U)) (F64.sub (F64.int (a x)) (F64.int (u x)))
        = F64.int (((A + a x : Nat) : Int) - ((U + u x : Nat) : Int)) := by
      have harith : ((A : Int) - (U : Int)) + ((a x : Int) - (u x : Int))
          = ((A + a x : Nat) : Int) - ((U + u x : Nat) : Int) := by
        push_cast
        ring
      rw [F64.sub_int _ _ (by omega), F64.add_int _ _ (by omega), harith]
    simp only [List.map_cons, List.foldl_cons, List.sum_cons, hax, hux, e1, e2, e3]
    have hs1 : A + (a x + (xs.map a).sum) = A + a x + (xs.map a).sum := by omega
    have hs2 : U + (u x + (xs.map u).sum) = U + u x + (xs.map u).sum := by omega
    rw [hs1, hs2]
    exact hrec

/-! ## Claims on `ParseGPUsMetrics` -/

/-- C1: for every input, `total` is the sum of `parseGRES` of the second field and `alloc`
the sum of `parseGRES` of the third field, over exactly the counted lines: the lines of the
input (split on the newline) with exactly three whitespace-separated fields whose first field
is not the first field of an earlier three-field line.  The lines `node1 gpu:4 gpu:1` and
`node2 gpu:2 gpu:0` give alloc 1, total 6 and idle 5. -/
theorem ParseGPUsMetrics_sums :
    (∀ input : Str,
      (ParseGPUsMetrics input).total
          = F64.sum ((countedLines input).map fun l => parseGRES (field l 1)) ∧
        (ParseGPUsMetrics input).alloc
          = F64.sum ((countedLines input).map fun l => parseGRES (field l 2))) ∧
      ParseGPUsMetrics "node1 gpu:4 gpu:1\nnode2 gpu:2 gpu:0".toList
        = { alloc := F64.int 1, idle := F64.int 5, total := F64.int 6 } := by
  refine ⟨fun input => ?_, by decide!⟩
  obtain ⟨h1, h2, _⟩ := ParseGPUsMetrics_counted input
  exact ⟨h1, h2⟩

/-- C2: first seen wins.  When a three-field line `L` has the first field of a three-field
line among the lines `pre`, the input with `L` inserted after `pre` gives the same `alloc`,
`idle` and `total` as the input without it, whatever the other fields of `L` and whatever
lines lie in between. -/
theorem ParseGPUsMetrics_dedup (pre post : List Str) (L : Str)
    (hpre : ∀ l ∈ pre, '\n' ∉ l) (hpost : ∀ l ∈ post, '\n' ∉ l) (hL : '\n' ∉ L)
    (h3 : hasThreeFields L = true)
    (hdup : ∃ l ∈ pre, hasThreeFields l = true ∧ field l 0 = field L 0) :
    ParseGPUsMetrics (joinLines (pre ++ L :: post)) = ParseGPUsMetrics (joinLines (pre ++ post)) := by
  have _ := h3
  obtain ⟨hin, hout⟩ := not_mem_joined pre post L hpre hpost hL
  obtain ⟨l, hl, hl3, hleq⟩ := hdup
  have hseen : field L 0 ∈ (pre.foldl gpusLoopBody GPUsLoop.init).seen := by
    rw [← hleq]
    exact (mem_seen_foldl pre GPUsLoop.init).2 l hl hl3
  simp only [ParseGPUsMetrics]
  rw [gpusLoop_joinLines _ hin, gpusLoop_joinLines _ hout,
    foldl_gpus_insert pre post L _ (gpusLoopBody_of_seen _ L hseen)]

/-- C2 at `node1 gpu:4 gpu:1` followed by `node1 gpu:8 gpu:8`: the second line changes
nothing, and the result is total 4, alloc 1, idle 3. -/
theorem ParseGPUsMetrics_dedup_witness :
    ParseGPUsMetrics (joinLines (["node1 gpu:4 gpu:1".toList] ++ "node1 gpu:8 gpu:8".toList :: []))
        = ParseGPUsMetrics (joinLines (["node1 gpu:4 gpu:1".toList] ++ [])) ∧
      ParseGPUsMetrics "node1 gpu:4 gpu:1\nnode1 gpu:8 gpu:8".toList
        = { alloc := F64.int 1, idle := F64.int 3, total := F64.int 4 } :=
  ⟨ParseGPUsMetrics_dedup ["node1 gpu:4 gpu:1".toList] [] "node1 gpu:8 gpu:8".toList
      (by decide) (by decide) (by decide) (by decide) (by decide),
   by decide!⟩

/-- C3, as stated, fails: for the two nodes `a gpu:9007199254740992 gpu:9007199254740992` and
`b gpu:1 gpu:0` the record has total `2^53` (the sum `2^53 + 1` is rounded), alloc `2^53` and
idle 1, while total - alloc is 0. -/
theorem ParseGPUsMetrics_idle_ne_total_sub_alloc :
    ParseGPUsMetrics "a gpu:9007199254740992 gpu:9007199254740992\nb gpu:1 gpu:0".toList
        = { alloc := F64.int 9007199254740992, idle := F64.int 1,
            total := F64.int 9007199254740992 } ∧
      (ParseGPUsMetrics
          "a gpu:9007199254740992 gpu:9007199254740992\nb gpu:1 gpu:0".toList).idle
        ≠ (ParseGPUsMetrics
            "a gpu:9007199254740992 gpu:9007199254740992\nb gpu:1 gpu:0".toList).total.sub
          (ParseGPUsMetrics
            "a gpu:9007199254740992 gpu:9007199254740992\nb gpu:1 gpu:0".toList).alloc := by
  decide!

/-- C3, amended: for every input each counted node contributes exactly `avail - used` to
`idle`, where `avail` and `used` are its contributions to `total` and `alloc`; and
`idle = total - alloc` holds in the aggregate whenever the values of the counted nodes are
natural numbers (`a l` and `u l` for the node `l`) whose sums are at most `2^53`, the range in
which binary64 sums are exact. -/
theorem ParseGPUsMetrics_idle (input : Str) :
    (ParseGPUsMetrics input).idle
        = F64.sum ((countedLines input).map fun l =>
            (parseGRES (field l 1)).sub (parseGRES (field l 2))) ∧
      ∀ a u : Str → Nat,
        (∀ l ∈ countedLines input,
          parseGRES (field l 1) = F64.int (a l) ∧ parseGRES (field l 2) = F64.int (u l)) →
        ((countedLines input).map a).sum ≤ 2 ^ 53 →
        ((countedLines input).map u).sum ≤ 2 ^ 53 →
        (ParseGPUsMetrics input).idle
          = (ParseGPUsMetrics input).total.sub (ParseGPUsMetrics input).alloc := by
  obtain ⟨ht, ha, hi⟩ := ParseGPUsMetrics_counted input
  refine ⟨hi, fun a u hval hA hU => ?_⟩
  obtain ⟨s1, s2, s3⟩ := foldl_int_sums a u (countedLines input) 0 0 hval
    (by simpa using hA) (by simpa using hU)
  simp only [Nat.zero_add, Nat.cast_zero, sub_self] at s1 s2 s3
  rw [← F64.zero_eq_int] at s1 s2 s3
  rw [ht, ha, hi]
  simp only [F64.sum]
  rw [s1, s2]
  rw [F64.sub_int _ _ (by omega)]
  exact s3

/-- C3, amended, at the lines `node1 gpu:4 gpu:1` and `node2 gpu:2 gpu:0`: the values are
the integers after `gpu:`, and idle (5) is total (6) minus alloc (1). -/
theorem ParseGPUsMetrics_idle_witness :
    (ParseGPUsMetrics "node1 gpu:4 gpu:1\nnode2 gpu:2 gpu:0".toList).idle
      = (ParseGPUsMetrics "node1 gpu:4 gpu:1\nnode2 gpu:2 gpu:0".toList).total.sub
          (ParseGPUsMetrics "node1 gpu:4 gpu:1\nnode2 gpu:2 gpu:0".toList).alloc :=
  (ParseGPUsMetrics_idle "node1 gpu:4 gpu:1\nnode2 gpu:2 gpu:0".toList).2
    (fun l => decimalValue ((field l 1).drop 4)) (fun l => decimalValue ((field l 2).drop 4))
    (by decide!) (by decide!) (by decide!)

/-! ## The loop of `ParseGresGPUMetrics` -/

theorem gresLoopBody_of_not_three (qm : GresGPUMetrics) (l : Str)
    (h : hasThreeFields l = false) : gresLoopBody qm l = qm := by
  have hlen : (Fields l).length ≠ 3 := by simpa [hasThreeFields] using h
  simp only [gresLoopBody, hlen, ne_eq, not_false_eq_true, if_true]

theorem gresLoopBody_of_no_gpu (qm : GresGPUMetrics) (l : Str)
    (hc : Contains (field l 2) "gres/gpu".toList = false) : gresLoopBody qm l = qm := by
  simp only [field] at hc
  simp only [gresLoopBody, hc, Bool.not_false, if_true, ite_self]

theorem gresLoopBody_of_job (qm : GresGPUMetrics) (l : Str) (h3 : hasThreeFields l = true)
    (hc : Contains (field l 2) "gres/gpu".toList = true) :
    gresLoopBody qm l = gresSwitch qm (Fields l) := by
  have hlen : (Fields l).length = 3 := by simpa [hasThreeFields] using h3
  simp only [field] at hc
  simp only [gresLoopBody, hlen, hc, ne_eq, not_true_eq_false, if_false, Bool.not_true,
    Bool.false_eq_true]

theorem gresSwitch_of_other_label (qm : GresGPUMetrics) (sp : List Str)
    (h : sp.getD 1 [] ∉ stateLabels) : gresSwitch qm sp = qm := by
  simp only [stateLabels, List.mem_cons, List.mem_singleton, not_or, List.not_mem_nil,
    or_false] at h
  obtain ⟨h1, h2, h4, h5, h6, h7, h8, h9, h10, h11, h12⟩ := h
  simp only [gresSwitch, h1, h2, h4, h5, h6, h7, h8, h9, h10, h11, h12, if_false]

theorem gresLoopBody_of_other_label (qm : GresGPUMetrics) (l : Str)
    (h : field l 1 ∉ stateLabels) : gresLoopBody qm l = qm := by
  simp only [gresLoopBody]
  split_ifs
  · rfl
  · rfl
  · exact gresSwitch_of_other_label qm _ h

theorem gresSwitch_of_pending (qm : GresGPUMetrics) (sp : List Str)
    (h : sp.getD 1 [] = "PENDING".toList) :
    gresSwitch qm sp =
      if 2 < sp.length ∧ sp.getD 2 [] = "Dependency".toList then
        { qm with pending := qm.pending.incr, pending_dep := qm.pending_dep.incr }
      else { qm with pending := qm.pending.incr } := by
  simp only [gresSwitch, h]
  rfl

theorem gresSwitch_of_running (qm : GresGPUMetrics) (sp : List Str)
    (h : sp.getD 1 [] = "RUNNING".toList) :
    gresSwitch qm sp = { qm with running := qm.running.incr } := by
  simp only [gresSwitch, h]
  rfl

theorem gresSwitch_of_suspended (qm : GresGPUMetrics) (sp : List Str)
    (h : sp.getD 1 [] = "SUSPENDED".toList) :
    gresSwitch qm sp = { qm with suspended := qm.suspended.incr } := by
  simp only [gresSwitch, h]
  rfl

theorem gresSwitch_of_cancelled (qm : GresGPUMetrics) (sp : List Str)
    (h : sp.getD 1 [] = "CANCELLED".toList) :
    gresSwitch qm sp = { qm with cancelled := qm.cancelled.incr } := by
  simp only [gresSwitch, h]
  rfl

theorem gresSwitch_of_completing (qm : GresGPUMetrics) (sp : List Str)
    (h : sp.getD 1 [] = "COMPLETING".toList) :
    gresSwitch qm sp = { qm with completing := qm.completing.incr } := by
  simp only [gresSwitch, h]
  rfl

theorem gresSwitch_of_completed (qm : GresGPUMetrics) (sp : List Str)
    (h : sp.getD 1 [] = "COMPLETED".toList) :
    gresSwitch qm sp = { qm with completed := qm.completed.incr } := by
  simp only [gresSwitch, h]
  rfl

theorem gresSwitch_of_configuring (qm : GresGPUMetrics) (sp : List Str)
    (h : sp.getD 1 [] = "CONFIGURING".toList) :
    gresSwitch qm sp = { qm with configuring := qm.configuring.incr } := by
  simp only [gresSwitch, h]
  rfl

theorem gresSwitch_of_failed (qm : GresGPUMetrics) (sp : List Str)
    (h : sp.getD 1 [] = "FAILED".toList) :
    gresSwitch qm sp = { qm with failed := qm.failed.incr } := by
  simp only [gresSwitch, h]
  rfl

theorem gresSwitch_of_timeout (qm : GresGPUMetrics) (sp : List Str)
    (h : sp.getD 1 [] = "TIMEOUT".toList) :
    gresSwitch qm sp = { qm with timeout := qm.timeout.incr } := by
  simp only [gresSwitch, h]
  rfl

theorem gresSwitch_of_preempted (qm : GresGPUMetrics) (sp : List Str)
    (h : sp.getD 1 [] = "PREEMPTED".toList) :
    gresSwitch qm sp = { qm with preempted := qm.preempted.incr } := by
  simp only [gresSwitch, h]
  rfl

theorem gresSwitch_of_node_fail (qm : GresGPUMetrics) (sp : List Str)
    (h : sp.getD 1 [] = "NODE_FAIL".toList) :
    gresSwitch qm sp = { qm with node_fail := qm.node_fail.incr } := by
  simp only [gresSwitch, h]
  rfl

theorem mem_stateLabels_iff (x : Str) :
    x ∈ stateLabels ↔
      x = "PENDING".toList ∨ x = "RUNNING".toList ∨ x = "SUSPENDED".toList ∨
      x = "CANCELLED".toList ∨ x = "COMPLETING".toList ∨ x = "COMPLETED".toList ∨
      x = "CONFIGURING".toList ∨ x = "FAILED".toList ∨ x = "TIMEOUT".toList ∨
      x = "PREEMPTED".toList ∨ x = "NODE_FAIL".toList := by
  simp only [stateLabels, List.mem_cons, List.mem_singleton, List.not_mem_nil, or_false]

theorem gresSwitch_pending (qm : GresGPUMetrics) (sp : List Str) :
    (gresSwitch qm sp).pending
      = if sp.getD 1 [] = "PENDING".toList then qm.pending.incr else qm.pending := by
  by_cases hmem : sp.getD 1 [] ∈ stateLabels
  · rcases (mem_stateLabels_iff _).mp hmem with h | h | h | h | h | h | h | h | h | h | h
    · rw [gresSwitch_of_pending qm sp h, h]
      split_ifs <;> first | rfl | (exfalso; simp at *)
    · rw [gresSwitch_of_running qm sp h, h]
      rfl
    · rw [gresSwitch_of_suspended qm sp h, h]
      rfl
    · rw [gresSwitch_of_cancelled qm sp h, h]
      rfl
    · rw [gresSwitch_of_completing qm sp h, h]
      rfl
    · rw [gresSwitch_of_completed qm sp h, h]
      rfl
    · rw [gresSwitch_of_configuring qm sp h, h]
      rfl
    · rw [gresSwitch_of_failed qm sp h, h]
      rfl
    · rw [gresSwitch_of_timeout qm sp h, h]
      rfl
    · rw [gresSwitch_of_preempted qm sp h, h]
      rfl
    · rw [gresSwitch_of_node_fail qm sp h, h]
      rfl
  · have hne : sp.getD 1 [] ≠ "PENDING".toList := fun e => hmem (e ▸ by decide)
    rw [gresSwitch_of_other_label qm sp hmem, if_neg hne]

theorem gresSwitch_running (qm : GresGPUMetrics) (sp : List Str) :
    (gresSwitch qm sp).running
      = if sp.getD 1 [] = "RUNNING".toList then qm.running.incr else qm.running := by
  by_cases hmem : sp.getD 1 [] ∈ stateLabels
  · rcases (mem_stateLabels_iff _).mp hmem with h | h | h | h | h | h | h | h | h | h | h
    · rw [gresSwitch_of_pending qm sp h, h]
      split_ifs <;> first | rfl | (exfalso; simp at *)
    · rw [gresSwitch_of_running qm sp h, h]
      rfl
    · rw [gresSwitch_of_suspended qm sp h, h]
      rfl
    · rw [gresSwitch_of_cancelled qm sp h, h]
      rfl
    · rw [gresSwitch_of_completing qm sp h, h]
      rfl
    · rw [gresSwitch_of_completed qm sp h, h]
      rfl
    · rw [gresSwitch_of_configuring qm sp h, h]
      rfl
    · rw [gresSwitch_of_failed qm sp h, h]
      rfl
    · rw [gresSwitch_of_timeout qm sp h, h]
      rfl
    · rw [gresSwitch_of_preempted qm sp h, h]
      rfl
    · rw [gresSwitch_of_node_fail qm sp h, h]
      rfl
  · have hne : sp.getD 1 [] ≠ "RUNNING".toList := fun e => hmem (e ▸ by decide)
    rw [gresSwitch_of_other_label qm sp hmem, if_neg hne]

theorem gresSwitch_suspended (qm : GresGPUMetrics) (sp : List Str) :
    (gresSwitch qm sp).suspended
      = if sp.getD 1 [] = "SUSPENDED".toList then qm.suspended.incr else qm.suspended := by
  by_cases hmem : sp.getD 1 [] ∈ stateLabels
  · rcases (mem_stateLabels_iff _).mp hmem with h | h | h | h | h | h | h | h | h | h | h
    · rw [gresSwitch_of_pending qm sp h, h]
      split_ifs <;> first | rfl | (exfalso; simp at *)
    · rw [gresSwitch_of_running qm sp h, h]
      rfl
    · rw [gresSwitch_of_suspended qm sp h, h]
      rfl
    · rw [gresSwitch_of_cancelled qm sp h, h]
      rfl
    · rw [gresSwitch_of_completing qm sp h, h]
      rfl
    · rw [gresSwitch_of_completed qm sp h, h]
      rfl
    · rw [gresSwitch_of_configuring qm sp h, h]
      rfl
    · rw [gresSwitch_of_failed qm sp h, h]
      rfl
    · rw [gresSwitch_of_timeout qm sp h, h]
      rfl
    · rw [gresSwitch_of_preempted qm sp h, h]
      rfl
    · rw [gresSwitch_of_node_fail qm sp h, h]
      rfl
  · have hne : sp.getD 1 [] ≠ "SUSPENDED".toList := fun e => hmem (e ▸ by decide)
    rw [gresSwitch_of_other_label qm sp hmem, if_neg hne]

theorem gresSwitch_cancelled (qm : GresGPUMetrics) (sp : List Str) :
    (gresSwitch qm sp).cancelled
      = if sp.getD 1 [] = "CANCELLED".toList then qm.cancelled.incr else qm.cancelled := by
  by_cases hmem : sp.getD 1 [] ∈ stateLabels
  · rcases (mem_stateLabels_iff _).mp hmem with h | h | h | h | h | h | h | h | h | h | h
    · rw [gresSwitch_of_pending qm sp h, h]
      split_ifs <;> first | rfl | (exfalso; simp at *)
    · rw [gresSwitch_of_running qm sp h, h]
      rfl
    · rw [gresSwitch_of_suspended qm sp h, h]
      rfl
    · rw [gresSwitch_of_cancelled qm sp h, h]
      rfl
    · rw [gresSwitch_of_completing qm sp h, h]
      rfl
    · rw [gresSwitch_of_completed qm sp h, h]
      rfl
    · rw [gresSwitch_of_configuring qm sp h, h]
      rfl
    · rw [gresSwitch_of_failed qm sp h, h]
      rfl
    · rw [gresSwitch_of_timeout qm sp h, h]
      rfl
    · rw [gresSwitch_of_preempted qm sp h, h]
      rfl
    · rw [gresSwitch_of_node_fail qm sp h, h]
      rfl
  · have hne : sp.getD 1 [] ≠ "CANCELLED".toList := fun e => hmem (e ▸ by decide)
    rw [gresSwitch_of_other_label qm sp hmem, if_neg hne]

theorem gresSwitch_completing (qm : GresGPUMetrics) (sp : List Str) :
    (gresSwitch qm sp).completing
      = if sp.getD 1 [] = "COMPLETING".toList then qm.completing.incr else qm.completing := by
  by_cases hmem : sp.getD 1 [] ∈ stateLabels
  · rcases (mem_stateLabels_iff _).mp hmem with h | h | h | h | h | h | h | h | h | h | h
    · rw [gresSwitch_of_pending qm sp h, h]
      split_ifs <;> first | rfl | (exfalso; simp at *)
    · rw [gresSwitch_of_running qm sp h, h]
      rfl
    · rw [gresSwitch_of_suspended qm sp h, h]
      rfl
    · rw [gresSwitch_of_cancelled qm sp h, h]
      rfl
    · rw [gresSwitch_of_completing qm sp h, h]
      rfl
    · rw [gresSwitch_of_completed qm sp h, h]
      rfl
    · rw [gresSwitch_of_configuring qm sp h, h]
      rfl
    · rw [gresSwitch_of_failed qm sp h, h]
      rfl
    · rw [gresSwitch_of_timeout qm sp h, h]
      rfl
    · rw [gresSwitch_of_preempted qm sp h, h]
      rfl
    · rw [gresSwitch_of_node_fail qm sp h, h]
      rfl
  · have hne : sp.getD 1 [] ≠ "COMPLETING".toList := fun e => hmem (e ▸ by decide)
    rw [gresSwitch_of_other_label qm sp hmem, if_neg hne]

theorem gresSwitch_completed (qm : GresGPUMetrics) (sp : List Str) :
    (gresSwitch qm sp).completed
      = if sp.getD 1 [] = "COMPLETED".toList then qm.completed.incr else qm.completed := by
  by_cases hmem : sp.getD 1 [] ∈ stateLabels
  · rcases (mem_stateLabels_iff _).mp hmem with h | h | h | h | h | h | h | h | h | h | h
    · rw [gresSwitch_of_pending qm sp h, h]
      split_ifs <;> first | rfl | (exfalso; simp at *)
    · rw [gresSwitch_of_running qm sp h, h]
      rfl
    · rw [gresSwitch_of_suspended qm sp h, h]
      rfl
    · rw [gresSwitch_of_cancelled qm sp h, h]
      rfl
    · rw [gresSwitch_of_completing qm sp h, h]
      rfl
    · rw [gresSwitch_of_completed qm sp h, h]
      rfl
    · rw [gresSwitch_of_configuring qm sp h, h]
      rfl
    · rw [gresSwitch_of_failed qm sp h, h]
      rfl
    · rw [gresSwitch_of_timeout qm sp h, h]
      rfl
    · rw [gresSwitch_of_preempted qm sp h, h]
      rfl
    · rw [gresSwitch_of_node_fail qm sp h, h]
      rfl
  · have hne : sp.getD 1 [] ≠ "COMPLETED".toList := fun e => hmem (e ▸ by decide)
    rw [gresSwitch_of_other_label qm sp hmem, if_neg hne]

theorem gresSwitch_configuring (qm : GresGPUMetrics) (sp : List Str) :
    (gresSwitch qm sp).configuring
      = if sp.getD 1 [] = "CONFIGURING".toList then qm.configuring.incr else qm.configuring := by
  by_cases hmem : sp.getD 1 [] ∈ stateLabels
  · rcases (mem_stateLabels_iff _).mp hmem with h | h | h | h | h | h | h | h | h | h | h
    · rw [gresSwitch_of_pending qm sp h, h]
      split_ifs <;> first | rfl | (exfalso; simp at *)
    · rw [gresSwitch_of_running qm sp h, h]
      rfl
    · rw [gresSwitch_of_suspended qm sp h, h]
      rfl
    · rw [gresSwitch_of_cancelled qm sp h, h]
      rfl
    · rw [gresSwitch_of_completing qm sp h, h]
      rfl
    · rw [gresSwitch_of_completed qm sp h, h]
      rfl
    · rw [gresSwitch_of_configuring qm sp h, h]
      rfl
    · rw [gresSwitch_of_failed qm sp h, h]
      rfl
    · rw [gresSwitch_of_timeout qm sp h, h]
      rfl
    · rw [gresSwitch_of_preempted qm sp h, h]
      rfl
    · rw [gresSwitch_of_node_fail qm sp h, h]
      rfl
  · have hne : sp.getD 1 [] ≠ "CONFIGURING".toList := fun e => hmem (e ▸ by decide)
    rw [gresSwitch_of_other_label qm sp hmem, if_neg hne]

theorem gresSwitch_failed (qm : GresGPUMetrics) (sp : List Str) :
    (gresSwitch qm sp).failed
      = if sp.getD 1 [] = "FAILED".toList then qm.failed.incr else qm.failed := by
  by_cases hmem : sp.getD 1 [] ∈ stateLabels
  · rcases (mem_stateLabels_iff _).mp hmem with h | h | h | h | h | h | h | h | h | h | h
    · rw [gresSwitch_of_pending qm sp h, h]
      split_ifs <;> first | rfl | (exfalso; simp at *)
    · rw [gresSwitch_of_running qm sp h, h]
      rfl
    · rw [gresSwitch_of_suspended qm sp h, h]
      rfl
    · rw [gresSwitch_of_cancelled qm sp h, h]
      rfl
    · rw [gresSwitch_of_completing qm sp h, h]
      rfl
    · rw [gresSwitch_of_completed qm sp h, h]
      rfl
    · rw [gresSwitch_of_configuring qm sp h, h]
      rfl
    · rw [gresSwitch_of_failed qm sp h, h]
      rfl
    · rw [gresSwitch_of_timeout qm sp h, h]
      rfl
    · rw [gresSwitch_of_preempted qm sp h, h]
      rfl
    · rw [gresSwitch_of_node_fail qm sp h, h]
      rfl
  · have hne : sp.getD 1 [] ≠ "FAILED".toList := fun e => hmem (e ▸ by decide)
    rw [gresSwitch_of_other_label qm sp hmem, if_neg hne]

theorem gresSwitch_timeout (qm : GresGPUMetrics) (sp : List Str) :
    (gresSwitch qm sp).timeout
      = if sp.getD 1 [] = "TIMEOUT".toList then qm.timeout.incr else qm.timeout := by
  by_cases hmem : sp.getD 1 [] ∈ stateLabels
  · rcases (mem_stateLabels_iff _).mp hmem with h | h | h | h | h | h | h | h | h | h | h
    · rw [gresSwitch_of_pending qm sp h, h]
      split_ifs <;> first | rfl | (exfalso; simp at *)
    · rw [gresSwitch_of_running qm sp h, h]
      rfl
    · rw [gresSwitch_of_suspended qm sp h, h]
      rfl
    · rw [gresSwitch_of_cancelled qm sp h, h]
      rfl
    · rw [gresSwitch_of_completing qm sp h, h]
      rfl
    · rw [gresSwitch_of_completed qm sp h, h]
      rfl
    · rw [gresSwitch_of_configuring qm sp h, h]
      rfl
    · rw [gresSwitch_of_failed qm sp h, h]
      rfl
    · rw [gresSwitch_of_timeout qm sp h, h]
      rfl
    · rw [gresSwitch_of_preempted qm sp h, h]
      rfl
    · rw [gresSwitch_of_node_fail qm sp h, h]
      rfl
  · have hne : sp.getD 1 [] ≠ "TIMEOUT".toList := fun e => hmem (e ▸ by decide)
    rw [gresSwitch_of_other_label qm sp hmem, if_neg hne]

theorem gresSwitch_preempted (qm : GresGPUMetrics) (sp : List Str) :
    (gresSwitch qm sp).preempted
      = if sp.getD 1 [] = "PREEMPTED".toList then qm.preempted.incr else qm.preempted := by
  by_cases hmem : sp.getD 1 [] ∈ stateLabels
  · rcases (mem_stateLabels_iff _).mp hmem with h | h | h | h | h | h | h | h | h | h | h
    · rw [gresSwitch_of_pending qm sp h, h]
      split_ifs <;> first | rfl | (exfalso; simp at *)
    · rw [gresSwitch_of_running qm sp h, h]
      rfl
    · rw [gresSwitch_of_suspended qm sp h, h]
      rfl
    · rw [gresSwitch_of_cancelled qm sp h, h]
      rfl
    · rw [gresSwitch_of_completing qm sp h, h]
      rfl
    · rw [gresSwitch_of_completed qm sp h, h]
      rfl
    · rw [gresSwitch_of_configuring qm sp h, h]
      rfl
    · rw [gresSwitch_of_failed qm sp h, h]
      rfl
    · rw [gresSwitch_of_timeout qm sp h, h]
      rfl
    · rw [gresSwitch_of_preempted qm sp h, h]
      rfl
    · rw [gresSwitch_of_node_fail qm sp h, h]
      rfl
  · have hne : sp.getD 1 [] ≠ "PREEMPTED".toList := fun e => hmem (e ▸ by decide)
    rw [gresSwitch_of_other_label qm sp hmem, if_neg hne]

theorem gresSwitch_node_fail (qm : GresGPUMetrics) (sp : List Str) :
    (gresSwitch qm sp).node_fail
      = if sp.getD 1 [] = "NODE_FAIL".toList then qm.node_fail.incr else qm.node_fail := by
  by_cases hmem : sp.getD 1 [] ∈ stateLabels
  · rcases (mem_stateLabels_iff _).mp hmem with h | h | h | h | h | h | h | h | h | h | h
    · rw [gresSwitch_of_pending qm sp h, h]
      split_ifs <;> first | rfl | (exfalso; simp at *)
    · rw [gresSwitch_of_running qm sp h, h]
      rfl
    · rw [gresSwitch_of_suspended qm sp h, h]
      rfl
    · rw [gresSwitch_of_cancelled qm sp h, h]
      rfl
    · rw [gresSwitch_of_completing qm sp h, h]
      rfl
    · rw [gresSwitch_of_completed qm sp h, h]
      rfl
    · rw [gresSwitch_of_configuring qm sp h, h]
      rfl
    · rw [gresSwitch_of_failed qm sp h, h]
      rfl
    · rw [gresSwitch_of_timeout qm sp h, h]
      rfl
    · rw [gresSwitch_of_preempted qm sp h, h]
      rfl
    · rw [gresSwitch_of_node_fail qm sp h, h]
      rfl
  · have hne : sp.getD 1 [] ≠ "NODE_FAIL".toList := fun e => hmem (e ▸ by decide)
    rw [gresSwitch_of_other_label qm sp hmem, if_neg hne]

/-- A counter that the `switch` increments exactly at `label` is incremented by the loop body
exactly on the job lines with that label. -/
theorem gresLoopBody_counter (get : GresGPUMetrics → F64) (label : Str)
    (hsw : ∀ qm sp, get (gresSwitch qm sp)
      = if sp.getD 1 [] = label then (get qm).incr else get qm)
    (qm : GresGPUMetrics) (l : Str) :
    get (gresLoopBody qm l) = if isJobLine label l = true then (get qm).incr else get qm := by
  by_cases h3 : hasThreeFields l = true
  · by_cases hc : Contains (field l 2) "gres/gpu".toList = true
    · rw [gresLoopBody_of_job qm l h3 hc, hsw]
      by_cases hl : (Fields l).getD 1 [] = label
      · have : isJobLine label l = true := by
          simp only [isJobLine, h3, hc, Bool.true_and, beq_iff_eq]
          exact hl
        rw [if_pos hl, if_pos this]
      · have : ¬ isJobLine label l = true := by
          simp only [isJobLine, h3, hc, Bool.true_and, beq_iff_eq]
          exact hl
        rw [if_neg hl, if_neg this]
    · have hc' : Contains (field l 2) "gres/gpu".toList = false := by simpa using hc
      have : ¬ isJobLine label l = true := by
        simp only [isJobLine, hc', Bool.and_false, Bool.false_and, Bool.false_eq_true,
          not_false_eq_true]
      rw [gresLoopBody_of_no_gpu qm l hc', if_neg this]
  · have h3' : hasThreeFields l = false := by simpa using h3
    have : ¬ isJobLine label l = true := by
      simp only [isJobLine, h3', Bool.false_and, Bool.false_eq_true, not_false_eq_true]
    rw [gresLoopBody_of_not_three qm l h3', if_neg this]

theorem foldl_gres_counter (get : GresGPUMetrics → F64) (label : Str)
    (hsw : ∀ qm sp, get (gresSwitch qm sp)
      = if sp.getD 1 [] = label then (get qm).incr else get qm)
    (ls : List Str) :
    ∀ qm, get (ls.foldl gresLoopBody qm)
      = F64.incr^[ls.countP (isJobLine label)] (get qm) := by
  induction ls with
  | nil => intro qm; rfl
  | cons x xs ih =>
    intro qm
    rw [List.foldl_cons, ih, gresLoopBody_counter get label hsw, List.countP_cons]
    by_cases hx : isJobLine label x = true
    · simp only [hx, if_true, Function.iterate_succ, Function.comp_apply]
    · simp only [hx, if_false, Nat.add_zero, Bool.false_eq_true]

theorem iterate_incr_int (k : Nat) :
    ∀ n : Nat, n + k ≤ 2 ^ 53 → F64.incr^[k] (F64.int n) = F64.int ((n + k : Nat) : Int) := by
  induction k with
  | zero => intro n _; rfl
  | succ k ih =>
    intro n h
    rw [Function.iterate_succ, Function.comp_apply, F64.incr_int n (by omega), ih (n + 1) (by omega)]
    congr 2
    omega

theorem ParseGresGPUMetrics_counter (get : GresGPUMetrics → F64) (label : Str)
    (hsw : ∀ qm sp, get (gresSwitch qm sp)
      = if sp.getD 1 [] = label then (get qm).incr else get qm)
    (hz : get GresGPUMetrics.zero = F64.zero)
    (input : Str) (hlen : (Split input '\n').length ≤ 2 ^ 53) :
    get (ParseGresGPUMetrics input) = F64.int (jobCount label input) := by
  have hle : (Split input '\n').countP (isJobLine label) ≤ 2 ^ 53 :=
    Nat.le_trans (List.countP_le_length _) hlen
  rw [ParseGresGPUMetrics, foldl_gres_counter get label hsw, hz, F64.zero_eq_int]
  have := iterate_incr_int ((Split input '\n').countP (isJobLine label)) 0 (by omega)
  simpa [jobCount] using this

theorem gresLoopBody_nil (qm : GresGPUMetrics) : gresLoopBody qm [] = qm :=
  gresLoopBody_of_not_three qm [] hasThreeFields_nil

theorem ParseGresGPUMetrics_joinLines (ls : List Str) (h : ∀ l ∈ ls, '\n' ∉ l) :
    ParseGresGPUMetrics (joinLines ls) = ls.foldl gresLoopBody GresGPUMetrics.zero := by
  by_cases hne : ls = []
  · subst hne
    exact gresLoopBody_nil _
  · rw [ParseGresGPUMetrics, Split_joinLines ls hne h]

theorem ParseGresGPUMetrics_insert (pre post : List Str) (L : Str)
    (hpre : ∀ l ∈ pre, '\n' ∉ l) (hpost : ∀ l ∈ post, '\n' ∉ l) (hL : '\n' ∉ L)
    (h : ∀ qm, gresLoopBody qm L = qm) :
    ParseGresGPUMetrics (joinLines (pre ++ L :: post))
      = ParseGresGPUMetrics (joinLines (pre ++ post)) := by
  obtain ⟨hin, hout⟩ := not_mem_joined pre post L hpre hpost hL
  rw [ParseGresGPUMetrics_joinLines _ hin, ParseGresGPUMetrics_joinLines _ hout,
    List.foldl_append, List.foldl_cons, h, List.foldl_append]

/-! ## Claims on `ParseGresGPUMetrics` and on lines that are left out -/

/-- C4: for every input (of at most `2^53` lines, the count up to which a `float64` counter
is exact) each of the eleven state counters is the number of lines with exactly three
whitespace-separated fields whose third field contains `gres/gpu` and whose second field is
exactly the label of the counter; and a line whose second field is none of the eleven labels
changes no counter. -/
theorem ParseGresGPUMetrics_counts (input : Str) (hlen : (Split input '\n').length ≤ 2 ^ 53) :
    (ParseGresGPUMetrics input).pending = F64.int (jobCount "PENDING".toList input) ∧
      (ParseGresGPUMetrics input).running = F64.int (jobCount "RUNNING".toList input) ∧
      (ParseGresGPUMetrics input).suspended = F64.int (jobCount "SUSPENDED".toList input) ∧
      (ParseGresGPUMetrics input).cancelled = F64.int (jobCount "CANCELLED".toList input) ∧
      (ParseGresGPUMetrics input).completing = F64.int (jobCount "COMPLETING".toList input) ∧
      (ParseGresGPUMetrics input).completed = F64.int (jobCount "COMPLETED".toList input) ∧
      (ParseGresGPUMetrics input).configuring = F64.int (jobCount "CONFIGURING".toList input) ∧
      (ParseGresGPUMetrics input).failed = F64.int (jobCount "FAILED".toList input) ∧
      (ParseGresGPUMetrics input).timeout = F64.int (jobCount "TIMEOUT".toList input) ∧
      (ParseGresGPUMetrics input).preempted = F64.int (jobCount "PREEMPTED".toList input) ∧
      (ParseGresGPUMetrics input).node_fail = F64.int (jobCount "NODE_FAIL".toList input) ∧
      (∀ (qm : GresGPUMetrics) (line : Str), field line 1 ∉ stateLabels →
        gresLoopBody qm line = qm) := by
  refine ⟨?_, ?_, ?_, ?_, ?_, ?_, ?_, ?_, ?_, ?_, ?_, gresLoopBody_of_other_label⟩
  · exact ParseGresGPUMetrics_counter (fun qm => qm.pending) _ gresSwitch_pending rfl input hlen
  · exact ParseGresGPUMetrics_counter (fun qm => qm.running) _ gresSwitch_running rfl input hlen
  · exact ParseGresGPUMetrics_counter (fun qm => qm.suspended) _ gresSwitch_suspended rfl input hlen
  · exact ParseGresGPUMetrics_counter (fun qm => qm.cancelled) _ gresSwitch_cancelled rfl input hlen
  · exact ParseGresGPUMetrics_counter (fun qm => qm.completing) _ gresSwitch_completing rfl input hlen
  · exact ParseGresGPUMetrics_counter (fun qm => qm.completed) _ gresSwitch_completed rfl input hlen
  · exact ParseGresGPUMetrics_counter (fun qm => qm.configuring) _ gresSwitch_configuring rfl input hlen
  · exact ParseGresGPUMetrics_counter (fun qm => qm.failed) _ gresSwitch_failed rfl input hlen
  · exact ParseGresGPUMetrics_counter (fun qm => qm.timeout) _ gresSwitch_timeout rfl input hlen
  · exact ParseGresGPUMetrics_counter (fun qm => qm.preempted) _ gresSwitch_preempted rfl input hlen
  · exact ParseGresGPUMetrics_counter (fun qm => qm.node_fail) _ gresSwitch_node_fail rfl input hlen

/-- C4 at the lines `101 RUNNING gres/gpu=2`, `102 PENDING gres/gpu=1` and
`103 RUNNING mem=10G`: running is 1, pending is 1 and every other counter is 0; and the line
`104 running gres/gpu=1`, whose label is in lower case, changes no counter. -/
theorem ParseGresGPUMetrics_counts_witness :
    ParseGresGPUMetrics
        "101 RUNNING gres/gpu=2\n102 PENDING gres/gpu=1\n103 RUNNING mem=10G".toList
      = { GresGPUMetrics.zero with running := F64.int 1, pending := F64.int 1 } ∧
    (ParseGresGPUMetrics
        "101 RUNNING gres/gpu=2\n102 PENDING gres/gpu=1\n103 RUNNING mem=10G".toList).running
      = F64.int 1 ∧
    (ParseGresGPUMetrics
        "101 RUNNING gres/gpu=2\n102 PENDING gres/gpu=1\n103 RUNNING mem=10G".toList).pending
      = F64.int 1 ∧
    gresLoopBody GresGPUMetrics.zero "104 running gres/gpu=1".toList = GresGPUMetrics.zero :=
  ⟨by decide!,
   (ParseGresGPUMetrics_counts
      "101 RUNNING gres/gpu=2\n102 PENDING gres/gpu=1\n103 RUNNING mem=10G".toList
      (by decide)).2.1,
   (ParseGresGPUMetrics_counts
      "101 RUNNING gres/gpu=2\n102 PENDING gres/gpu=1\n103 RUNNING mem=10G".toList
      (by decide)).1,
   (ParseGresGPUMetrics_counts
      "101 RUNNING gres/gpu=2\n102 PENDING gres/gpu=1\n103 RUNNING mem=10G".toList
      (by decide)).2.2.2.2.2.2.2.2.2.2.2 GresGPUMetrics.zero "104 running gres/gpu=1".toList
      (by decide)⟩

/-- C9: a line `L` whose number of whitespace-separated fields is not three is left out by
both pipelines: the input with `L` inserted between the lines `pre` and the lines `post`
gives the same result of `ParseGPUsMetrics`, with the same map of seen host names, and the
same result of `ParseGresGPUMetrics`, as the input without it. -/
theorem non_three_field_line_excluded (pre post : List Str) (L : Str)
    (hpre : ∀ l ∈ pre, '\n' ∉ l) (hpost : ∀ l ∈ post, '\n' ∉ l) (hL : '\n' ∉ L)
    (hn3 : (Fields L).length ≠ 3) :
    ParseGPUsMetrics (joinLines (pre ++ L :: post)) = ParseGPUsMetrics (joinLines (pre ++ post)) ∧
      (gpusLoop (joinLines (pre ++ L :: post))).seen = (gpusLoop (joinLines (pre ++ post))).seen ∧
      ParseGresGPUMetrics (joinLines (pre ++ L :: post))
        = ParseGresGPUMetrics (joinLines (pre ++ post)) := by
  have h3 : hasThreeFields L = false := by simpa [hasThreeFields] using hn3
  obtain ⟨hin, hout⟩ := not_mem_joined pre post L hpre hpost hL
  have hloop : gpusLoop (joinLines (pre ++ L :: post)) = gpusLoop (joinLines (pre ++ post)) := by
    rw [gpusLoop_joinLines _ hin, gpusLoop_joinLines _ hout,
      foldl_gpus_insert pre post L _ (gpusLoopBody_of_not_three _ L h3)]
  refine ⟨?_, ?_, ?_⟩
  · simp only [ParseGPUsMetrics, hloop]
  · rw [hloop]
  · exact ParseGresGPUMetrics_insert pre post L hpre hpost hL
      (fun qm => gresLoopBody_of_not_three qm L h3)

/-- C10: a three-field line `L` whose third field does not contain `gres/gpu` changes none of
the twelve counters, whatever its state label: the input with `L` inserted between the lines
`pre` and the lines `post` gives the same record as the input without it. -/
theorem no_gpu_job_line_excluded (pre post : List Str) (L : Str)
    (hpre : ∀ l ∈ pre, '\n' ∉ l) (hpost : ∀ l ∈ post, '\n' ∉ l) (hL : '\n' ∉ L)
    (h3 : hasThreeFields L = true) (hc : Contains (field L 2) "gres/gpu".toList = false) :
    ParseGresGPUMetrics (joinLines (pre ++ L :: post))
      = ParseGresGPUMetrics (joinLines (pre ++ post)) := by
  have _ := h3
  exact ParseGresGPUMetrics_insert pre post L hpre hpost hL
    (fun qm => gresLoopBody_of_no_gpu qm L hc)

/-- C9 at the two-field line `node1 gpu:8` put before `node1 gpu:4 gpu:1`: it is left out
and does not mark `node1` as seen, so the later line is counted (alloc 1, idle 3, total 4). -/
theorem non_three_field_line_excluded_witness :
    (ParseGPUsMetrics (joinLines ([] ++ "node1 gpu:8".toList :: ["node1 gpu:4 gpu:1".toList]))
        = ParseGPUsMetrics (joinLines ([] ++ ["node1 gpu:4 gpu:1".toList])) ∧
      (gpusLoop (joinLines ([] ++ "node1 gpu:8".toList :: ["node1 gpu:4 gpu:1".toList]))).seen
        = (gpusLoop (joinLines ([] ++ ["node1 gpu:4 gpu:1".toList]))).seen ∧
      ParseGresGPUMetrics (joinLines ([] ++ "node1 gpu:8".toList :: ["node1 gpu:4 gpu:1".toList]))
        = ParseGresGPUMetrics (joinLines ([] ++ ["node1 gpu:4 gpu:1".toList]))) ∧
    ParseGPUsMetrics "node1 gpu:8\nnode1 gpu:4 gpu:1".toList
      = { alloc := F64.int 1, idle := F64.int 3, total := F64.int 4 } :=
  ⟨non_three_field_line_excluded [] ["node1 gpu:4 gpu:1".toList] "node1 gpu:8".toList
      (by decide) (by decide) (by decide) (by decide),
   by decide!⟩

/-- C10 at the line `103 RUNNING mem=10G` after `101 RUNNING gres/gpu=2` and
`102 PENDING gres/gpu=1`: the record is the one of the first two lines alone. -/
theorem no_gpu_job_line_excluded_witness :
    ParseGresGPUMetrics
        (joinLines (["101 RUNNING gres/gpu=2".toList, "102 PENDING gres/gpu=1".toList]
          ++ "103 RUNNING mem=10G".toList :: []))
      = ParseGresGPUMetrics
          (joinLines (["101 RUNNING gres/gpu=2".toList, "102 PENDING gres/gpu=1".toList] ++ [])) :=
  no_gpu_job_line_excluded ["101 RUNNING gres/gpu=2".toList, "102 PENDING gres/gpu=1".toList] []
    "103 RUNNING mem=10G".toList (by decide) (by decide) (by decide) (by decide) (by decide)

/-! ## The dependency counter -/

/-- In the `switch`, the dependency counter moves only together with `pending`. -/
theorem gresSwitch_pending_dep_cases (qm : GresGPUMetrics) (sp : List Str) :
    (gresSwitch qm sp).pending_dep = qm.pending_dep ∨
      ((gresSwitch qm sp).pending_dep = qm.pending_dep.incr ∧
        (gresSwitch qm sp).pending = qm.pending.incr ∧
        sp.getD 1 [] = "PENDING".toList ∧ sp.getD 2 [] = "Dependency".toList) := by
  by_cases hmem : sp.getD 1 [] ∈ stateLabels
  · rcases (mem_stateLabels_iff _).mp hmem with h | h | h | h | h | h | h | h | h | h | h
    · rw [gresSwitch_of_pending qm sp h]
      by_cases hd : 2 < sp.length ∧ sp.getD 2 [] = "Dependency".toList
      · rw [if_pos hd]
        exact Or.inr ⟨rfl, rfl, h, hd.2⟩
      · rw [if_neg hd]
        exact Or.inl rfl
    · rw [gresSwitch_of_running qm sp h]
      exact Or.inl rfl
    · rw [gresSwitch_of_suspended qm sp h]
      exact Or.inl rfl
    · rw [gresSwitch_of_cancelled qm sp h]
      exact Or.inl rfl
    · rw [gresSwitch_of_completing qm sp h]
      exact Or.inl rfl
    · rw [gresSwitch_of_completed qm sp h]
      exact Or.inl rfl
    · rw [gresSwitch_of_configuring qm sp h]
      exact Or.inl rfl
    · rw [gresSwitch_of_failed qm sp h]
      exact Or.inl rfl
    · rw [gresSwitch_of_timeout qm sp h]
      exact Or.inl rfl
    · rw [gresSwitch_of_preempted qm sp h]
      exact Or.inl rfl
    · rw [gresSwitch_of_node_fail qm sp h]
      exact Or.inl rfl
  · rw [gresSwitch_of_other_label qm sp hmem]
    exact Or.inl rfl

theorem Contains_Dependency : Contains "Dependency".toList "gres/gpu".toList = false := by
  decide

/-- The loop body never changes the dependency counter: a line that reaches the `switch` has
`gres/gpu` in its third field, which therefore is not `Dependency`. -/
theorem gresLoopBody_pending_dep (qm : GresGPUMetrics) (l : Str) :
    (gresLoopBody qm l).pending_dep = qm.pending_dep := by
  by_cases h3 : hasThreeFields l = true
  · by_cases hc : Contains (field l 2) "gres/gpu".toList = true
    · rw [gresLoopBody_of_job qm l h3 hc]
      rcases gresSwitch_pending_dep_cases qm (Fields l) with h | ⟨_, _, _, hd⟩
      · exact h
      · have hc' : Contains ((Fields l).getD 2 []) "gres/gpu".toList = true := hc
        rw [hd, Contains_Dependency] at hc'
        exact Bool.noConfusion hc'
    · rw [gresLoopBody_of_no_gpu qm l (by simpa using hc)]
  · rw [gresLoopBody_of_not_three qm l (by simpa using h3)]

theorem foldl_gres_pending_dep (ls : List Str) :
    ∀ qm, (ls.foldl gresLoopBody qm).pending_dep = qm.pending_dep := by
  induction ls with
  | nil => intro qm; rfl
  | cons x xs ih =>
    intro qm
    rw [List.foldl_cons, ih, gresLoopBody_pending_dep]

/-- The dependency counter is `0` for every input. -/
theorem ParseGresGPUMetrics_pending_dep_zero (input : Str) :
    (ParseGresGPUMetrics input).pending_dep = F64.zero :=
  foldl_gres_pending_dep _ _

theorem F64.le_zero_round (z : Int) (hz : 0 ≤ z) : F64.le F64.zero (F64.round z) = true := by
  have hneg : ¬ z < 0 := by omega
  simp only [F64.round, F64.ofScaled, hneg, decide_False, Bool.false_eq_true, if_false]
  split_ifs
  · rfl
  · simp only [F64.zero, F64.le, decide_eq_true_eq]
    exact Int.ofNat_nonneg _

theorem F64.ofNat_one : F64.ofNat 1 = F64.int 1 := F64.ofInt_eq_int 1 (by decide)

theorem F64.le_zero_incr (x : F64) (hx : F64.le F64.zero x = true) :
    F64.le F64.zero x.incr = true := by
  cases x with
  | fin a =>
    have ha : 0 ≤ a := by simpa [F64.zero, F64.le] using hx
    have hS : (0 : Int) ≤ ((2 ^ 1074 : Nat) : Int) := Int.ofNat_nonneg _
    rw [F64.incr, F64.ofNat_one]
    simp only [F64.int, F64.add]
    apply F64.le_zero_round
    have := Int.mul_nonneg (show (0 : Int) ≤ 1 by decide) hS
    omega
  | inf s =>
    cases s with
    | false =>
      rw [F64.incr, F64.ofNat_one]
      rfl
    | true => exact absurd hx (by decide)
  | nan => exact absurd hx (by decide)

theorem F64.le_zero_iterate_incr (k : Nat) :
    ∀ x : F64, F64.le F64.zero x = true → F64.le F64.zero (F64.incr^[k] x) = true := by
  induction k with
  | zero => intro x hx; exact hx
  | succ k ih =>
    intro x hx
    rw [Function.iterate_succ, Function.comp_apply]
    exact ih _ (F64.le_zero_incr x hx)

/-! ## Claims on the dependency counter -/

/-- C11: for every input the record satisfies `pending_dep <= pending`; a line that moves the
dependency counter in the `switch` moves `pending` too; and every counted `PENDING` job (three
fields, `gres/gpu` in the third, `PENDING` in the second) increments `pending`. -/
theorem ParseGresGPUMetrics_pending_dep_le (input : Str) :
    F64.le (ParseGresGPUMetrics input).pending_dep (ParseGresGPUMetrics input).pending = true ∧
      (∀ (qm : GresGPUMetrics) (splitted : List Str),
        (gresSwitch qm splitted).pending_dep ≠ qm.pending_dep →
          (gresSwitch qm splitted).pending_dep = qm.pending_dep.incr ∧
          (gresSwitch qm splitted).pending = qm.pending.incr) ∧
      (∀ (qm : GresGPUMetrics) (line : Str), isJobLine "PENDING".toList line = true →
        (gresLoopBody qm line).pending = qm.pending.incr) := by
  refine ⟨?_, ?_, ?_⟩
  · rw [ParseGresGPUMetrics_pending_dep_zero, ParseGresGPUMetrics,
      foldl_gres_counter (fun qm => qm.pending) _ gresSwitch_pending]
    exact F64.le_zero_iterate_incr _ _ (by decide)
  · intro qm sp hne
    rcases gresSwitch_pending_dep_cases qm sp with h | ⟨h1, h2, _, _⟩
    · exact absurd h hne
    · exact ⟨h1, h2⟩
  · intro qm line hj
    rw [gresLoopBody_counter (fun qm => qm.pending) _ gresSwitch_pending, if_pos hj]

/-- C13, as stated, fails: no input gives `pending_dep > 0`, and the line
`1 PENDING Dependency` increments neither `pending` nor `pending_dep`. -/
theorem pending_dep_never_positive :
    (¬ ∃ input : Str, F64.lt F64.zero (ParseGresGPUMetrics input).pending_dep = true) ∧
      ParseGresGPUMetrics "1 PENDING Dependency".toList = GresGPUMetrics.zero := by
  refine ⟨?_, by decide!⟩
  rintro ⟨input, h⟩
  rw [ParseGresGPUMetrics_pending_dep_zero] at h
  exact absurd h (by decide)

/-- C13, amended: a three-field line whose state is `PENDING` and whose third field is the
text `Dependency` has no `gres/gpu` in its third field, so the loop leaves it out before the
`switch`: it increments neither `pending` nor the dependency counter, and the input with the
line inserted gives the same record as the input without it. -/
theorem dependency_line_excluded (pre post : List Str) (L : Str)
    (hpre : ∀ l ∈ pre, '\n' ∉ l) (hpost : ∀ l ∈ post, '\n' ∉ l) (hL : '\n' ∉ L)
    (h3 : hasThreeFields L = true) (hstate : field L 1 = "PENDING".toList)
    (hdep : field L 2 = "Dependency".toList) :
    (∀ qm : GresGPUMetrics, gresLoopBody qm L = qm) ∧
      ParseGresGPUMetrics (joinLines (pre ++ L :: post))
        = ParseGresGPUMetrics (joinLines (pre ++ post)) := by
  have _ := h3
  have _ := hstate
  have hc : Contains (field L 2) "gres/gpu".toList = false := by
    rw [hdep]
    exact Contains_Dependency
  exact ⟨fun qm => gresLoopBody_of_no_gpu qm L hc,
    ParseGresGPUMetrics_insert pre post L hpre hpost hL
      (fun qm => gresLoopBody_of_no_gpu qm L hc)⟩

/-- C13, amended, at the line `1 PENDING Dependency` put after `2 PENDING gres/gpu=1`: the
record is the one of the first line alone, pending 1 and dependency counter 0. -/
theorem dependency_line_excluded_witness :
    ((∀ qm : GresGPUMetrics, gresLoopBody qm "1 PENDING Dependency".toList = qm) ∧
      ParseGresGPUMetrics
          (joinLines (["2 PENDING gres/gpu=1".toList] ++ "1 PENDING Dependency".toList :: []))
        = ParseGresGPUMetrics (joinLines (["2 PENDING gres/gpu=1".toList] ++ []))) ∧
    ParseGresGPUMetrics "2 PENDING gres/gpu=1\n1 PENDING Dependency".toList
      = { GresGPUMetrics.zero with pending := F64.int 1 } :=
  ⟨dependency_line_excluded ["2 PENDING gres/gpu=1".toList] [] "1 PENDING Dependency".toList
      (by decide) (by decide) (by decide) (by decide) (by decide) (by decide),
   by decide!⟩

/-! ## Claims on the collectors -/

/-- C12: `Collect` of the GPU collector emits exactly three gauge values, `alloc` under
`slurm_gpus_alloc`, `idle` under `slurm_gpus_idle` and `total` under `slurm_gpus_total`;
`Collect` of the queue collector emits exactly twelve, each counter of the record under its
own name; the values are the counters of the record unchanged and the names differ from each
other, so no value is emitted under the name of another counter. -/
theorem Collect_one_to_one (nodes jobs : Str) :
    (NewGPUsCollector.Collect nodes).map Metric.sample
        = [("slurm_gpus_alloc", (ParseGPUsMetrics nodes).alloc),
            ("slurm_gpus_idle", (ParseGPUsMetrics nodes).idle),
            ("slurm_gpus_total", (ParseGPUsMetrics nodes).total)] ∧
      (NewGresGPUCollector.Collect jobs).map Metric.sample
        = [("slurm_gres_gpu_pending", (ParseGresGPUMetrics jobs).pending),
            ("slurm_gres_gpu_pending_dependency", (ParseGresGPUMetrics jobs).pending_dep),
            ("slurm_gres_gpu_running", (ParseGresGPUMetrics jobs).running),
            ("slurm_gres_gpu_suspended", (ParseGresGPUMetrics jobs).suspended),
            ("slurm_gres_gpu_cancelled", (ParseGresGPUMetrics jobs).cancelled),
            ("slurm_gres_gpu_completing", (ParseGresGPUMetrics jobs).completing),
            ("slurm_gres_gpu_completed", (ParseGresGPUMetrics jobs).completed),
            ("slurm_gres_gpu_configuring", (ParseGresGPUMetrics jobs).configuring),
            ("slurm_gres_gpu_failed", (ParseGresGPUMetrics jobs).failed),
            ("slurm_gres_gpu_timeout", (ParseGresGPUMetrics jobs).timeout),
            ("slurm_gres_gpu_preempted", (ParseGresGPUMetrics jobs).preempted),
            ("slurm_gres_gpu_node_fail", (ParseGresGPUMetrics jobs).node_fail)] ∧
      (∀ m ∈ NewGPUsCollector.Collect nodes ++ NewGresGPUCollector.Collect jobs,
        m.valueType = ValueType.GaugeValue) ∧
      ((NewGPUsCollector.Collect nodes ++ NewGresGPUCollector.Collect jobs).map
        fun m => m.desc.fqName).Nodup := by
  refine ⟨rfl, rfl, ?_, ?_⟩
  · intro m hm
    simp only [GPUsCollector.Collect, GresGPUCollector.Collect, MustNewConstMetric,
      List.cons_append, List.nil_append, List.mem_cons, List.mem_singleton,
      List.not_mem_nil, or_false] at hm
    rcases hm with h | h | h | h | h | h | h | h | h | h | h | h | h | h | h <;> rw [h]
  · simp only [GPUsCollector.Collect, GresGPUCollector.Collect, MustNewConstMetric,
      NewGPUsCollector, NewGresGPUCollector, NewDesc, List.cons_append, List.nil_append,
      List.map_cons, List.map_nil]
    decide

/-! ## Claims on elements that are no plain count -/

theorem ParseFloat_of_beginsNoLiteral (c : Char) (r : Str) (h : beginsNoLiteral c = true) :
    ParseFloat (c :: r) = F64.zero := by
  simp only [beginsNoLiteral, Bool.not_eq_true', Bool.or_eq_false_iff, beq_eq_false_iff_ne,
    ne_eq] at h
  obtain ⟨⟨⟨⟨⟨⟨⟨⟨hd, h1⟩, h2⟩, h3⟩, h4⟩, h5⟩, h6⟩, h7⟩, h8⟩ := h
  have hs : special (c :: r) = none := by
    simp only [special, h1, h2, h5, h6, h7, h8, or_self, if_false]
  have hsign : readSign (c :: r) = (false, c :: r) := by
    simp only [readSign, h1, h2, if_false]
  have hc0 : c ≠ '0' := by
    rintro rfl
    exact absurd hd (by decide)
  have hhex : hasHexPrefix (c :: r) = false := by
    match r with
    | [] => rfl
    | [_] => rfl
    | _ :: _ :: _ =>
      have hb : (c == '0') = false := by simpa using hc0
      simp only [hasHexPrefix, hb, Bool.false_and]
  have hm : readMantissa false (c :: r) ⟨0, 0, false, false⟩ = (⟨0, 0, false, false⟩, c :: r) := by
    simp only [readMantissa, h3, h4, hd, if_false, Bool.false_eq_true, Bool.false_and]
  have hr : readFloat (c :: r) = none := by
    simp only [readFloat, hsign, hhex, Bool.false_eq_true, if_false, hm, Bool.not_false,
      Bool.or_true, if_true]
  simp only [ParseFloat, hs, hr]

/-- C14, as stated, fails: the subtype `1e3` is not a run of digits, and `gpu:1e3` gives
1000. -/
theorem parseGRES_subtype_not_zero :
    "1e3".toList ≠ [] ∧ ':' ∉ "1e3".toList ∧ ',' ∉ "1e3".toList ∧
      (¬ ∀ c ∈ "1e3".toList, isDigit c = true) ∧
      parseGRES ("gpu:".toList ++ "1e3".toList) = F64.int 1000 ∧
      parseGRES ("gpu:".toList ++ "1e3".toList) ≠ F64.zero := by
  decide!

/-- C14, amended: for a kept element with no count capture the subtype capture supplies the
value whenever `strconv.ParseFloat` accepts it, a run of digits or not.  For every non-empty
subtype `t` without `:` and `,`, `parseGRES("gpu:" + t)` is `ParseFloat(t)`; it is 0 when `t`
begins with a character with which no literal begins (anything but a digit, a sign, `.`, `_`,
`i`, `I`, `n`, `N`), as in `gpu:tesla`. -/
theorem parseGRES_untyped_subtype (t : Str) (ht : t ≠ []) (htc : ':' ∉ t) (htk : ',' ∉ t) :
    parseGRES ("gpu:".toList ++ t) = ParseFloat t ∧
      ((∀ c ∈ t.head?, beginsNoLiteral c = true) →
        parseGRES ("gpu:".toList ++ t) = F64.zero) := by
  have hk : ',' ∉ "gpu:".toList ++ t := by
    simp only [gpuPrefix_eq, List.mem_append, not_or]
    exact ⟨by decide, htk⟩
  have key : parseGRES ("gpu:".toList ++ t) = ParseFloat t := by
    rw [parseGRES_of_not_mem _ hk, parseGRESBody_untyped _ t ht htc]
  refine ⟨key, fun hb => ?_⟩
  rw [key]
  cases t with
  | nil => exact absurd rfl ht
  | cons c r => exact ParseFloat_of_beginsNoLiteral c r (hb c rfl)

/-- C14, amended, at `gpu:tesla` and `gpu:a100` (both 0) and at `gpu:1e3` (1000) and
`gpu:4.5` (four and a half). -/
theorem parseGRES_untyped_subtype_witness :
    parseGRES "gpu:tesla".toList = F64.zero ∧ parseGRES "gpu:a100".toList = F64.zero ∧
      parseGRES "gpu:1e3".toList = ParseFloat "1e3".toList ∧
      parseGRES "gpu:1e3".toList = F64.int 1000 ∧
      parseGRES "gpu:4.5".toList = F64.fin (9 * 2 ^ 1073) :=
  ⟨(parseGRES_untyped_subtype "tesla".toList (by decide) (by decide) (by decide)).2 (by decide),
   (parseGRES_untyped_subtype "a100".toList (by decide) (by decide) (by decide)).2 (by decide),
   (parseGRES_untyped_subtype "1e3".toList (by decide) (by decide) (by decide)).1,
   by decide!, by decide!⟩

theorem FindStringSubmatch_gpu_colon (r : Str) (h : ∀ c ∈ r.head?, c = ':') :
    gpuGresPattern.FindStringSubmatch ("gpu:".toList ++ r) = [] := by
  have htw : r.takeWhile (fun c => c != ':') = [] := by
    cases r with
    | nil => rfl
    | cons c r =>
      have : c = ':' := h c rfl
      simp [List.takeWhile_cons, this]
  simp only [gpuGresPattern.FindStringSubmatch, HasPrefix_gpu_append, drop_gpu_append, if_true,
    htw, List.isEmpty_nil]

/-- An element without the prefix `gpu:`, or with nothing or a `:` right after the prefix,
leaves `value` as it is. -/
theorem parseGRESBody_of_no_match (value : F64) (e : Str)
    (he : HasPrefix e "gpu:".toList = false ∨
      ∃ r : Str, e = "gpu:".toList ++ r ∧ ∀ c ∈ r.head?, c = ':') :
    parseGRESBody value e = value := by
  rcases he with h | ⟨r, rfl, hr⟩
  · simp only [parseGRESBody, h, Bool.not_false, if_true]
  · simp only [parseGRESBody, HasPrefix_gpu_append, Bool.not_true, Bool.false_eq_true, if_false,
      FindStringSubmatch_gpu_colon r hr, List.length_nil]
    rfl

theorem parseGRES_cons_comma (e s : Str) (h : ',' ∉ e) :
    parseGRES (e ++ ',' :: s) = (Split s ',').foldl parseGRESBody (parseGRESBody F64.zero e) := by
  simp only [parseGRES, Split_append_sep, Split_of_not_mem e ',' h, List.foldl_append,
    List.foldl_cons, List.foldl_nil]

/-- C15: an element `e` without `,` that does not begin with `gpu:`, or that is `gpu:`
followed by nothing or by a string that begins with `:`, is ignored: before and after any spec
`s` it leaves the value of `s`. -/
theorem parseGRES_ignores_no_match (s e : Str) (hek : ',' ∉ e)
    (he : HasPrefix e "gpu:".toList = false ∨
      ∃ r : Str, e = "gpu:".toList ++ r ∧ ∀ c ∈ r.head?, c = ':') :
    parseGRES (s ++ ",".toList ++ e) = parseGRES s ∧
      parseGRES (e ++ ",".toList ++ s) = parseGRES s := by
  have h1 : s ++ ",".toList ++ e = s ++ ',' :: e := by
    simp only [comma_eq, List.append_assoc, List.singleton_append]
  have h2 : e ++ ",".toList ++ s = e ++ ',' :: s := by
    simp only [comma_eq, List.append_assoc, List.singleton_append]
  constructor
  · rw [h1, parseGRES_append_comma s e hek, parseGRESBody_of_no_match _ e he]
  · rw [h2, parseGRES_cons_comma e s hek, parseGRESBody_of_no_match _ e he]
    rfl

/-- C15 at the elements `cpu:10`, `gpu`, `gpu:` and `gpu::4`, after and before the spec
`gpu:2`: the value stays 2. -/
theorem parseGRES_ignores_no_match_witness :
    (parseGRES "gpu:2,cpu:10".toList = parseGRES "gpu:2".toList ∧
      parseGRES "cpu:10,gpu:2".toList = parseGRES "gpu:2".toList) ∧
    (parseGRES "gpu:2,gpu".toList = parseGRES "gpu:2".toList ∧
      parseGRES "gpu,gpu:2".toList = parseGRES "gpu:2".toList) ∧
    (parseGRES "gpu:2,gpu:".toList = parseGRES "gpu:2".toList ∧
      parseGRES "gpu:,gpu:2".toList = parseGRES "gpu:2".toList) ∧
    (parseGRES "gpu:2,gpu::4".toList = parseGRES "gpu:2".toList ∧
      parseGRES "gpu::4,gpu:2".toList = parseGRES "gpu:2".toList) ∧
    parseGRES "gpu:2".toList = F64.int 2 :=
  ⟨parseGRES_ignores_no_match "gpu:2".toList "cpu:10".toList (by decide) (Or.inl (by decide)),
   parseGRES_ignores_no_match "gpu:2".toList "gpu".toList (by decide) (Or.inl (by decide)),
   parseGRES_ignores_no_match "gpu:2".toList "gpu:".toList (by decide)
     (Or.inr ⟨[], by decide, by simp⟩),
   parseGRES_ignores_no_match "gpu:2".toList "gpu::4".toList (by decide)
     (Or.inr ⟨":4".toList, by decide, by decide⟩),
   by decide!⟩

theorem annotation_eq : "(S:".toList = ['(', 'S', ':'] := rfl

/-- C16, as stated, fails: in `gpu:4(S:9007199254740993)` the count capture is
`9007199254740993` and the value is `9007199254740992`, the binary64 value nearest to it. -/
theorem parseGRES_annotated_not_exact :
    parseGRES ("gpu:".toList ++ "4".toList ++ "(S:".toList ++ "9007199254740993".toList
        ++ ")".toList) = F64.int 9007199254740992 ∧
      parseGRES ("gpu:".toList ++ "4".toList ++ "(S:".toList ++ "9007199254740993".toList
        ++ ")".toList) ≠ F64.int (decimalValue "9007199254740993".toList) := by
  decide!

/-- C16, amended: when an untyped count `n` is followed by an annotation `(S:` and a run of
digits `k`, the subtype capture is `n + "(S"`, the count capture is `k`, and the value is the
binary64 value nearest to the number `k` denotes, not the one of `n`; it is that number
exactly when it is at most `2^53`.  Here `n` and `k` are non-empty runs of digits and the rest
`r` holds no `,` and does not begin with a digit. -/
theorem parseGRES_annotated_count (n k r : Str) (hn : n ≠ []) (hnd : ∀ c ∈ n, isDigit c = true)
    (hk : k ≠ []) (hkd : ∀ c ∈ k, isDigit c = true) (hrk : ',' ∉ r)
    (hrd : ∀ c ∈ r.head?, isDigit c = false) :
    gpuGresPattern.FindStringSubmatch ("gpu:".toList ++ n ++ "(S:".toList ++ k ++ r)
        = ["gpu:".toList ++ n ++ "(S:".toList ++ k, n ++ "(S".toList, k] ∧
      parseGRES ("gpu:".toList ++ n ++ "(S:".toList ++ k ++ r) = F64.ofInt (decimalValue k) ∧
      (decimalValue k ≤ 2 ^ 53 →
        parseGRES ("gpu:".toList ++ n ++ "(S:".toList ++ k ++ r) = F64.int (decimalValue k)) := by
  have _ := hn
  have hshape : "gpu:".toList ++ n ++ "(S:".toList ++ k ++ r
      = "gpu:".toList ++ ((n ++ "(S".toList) ++ ':' :: (k ++ r)) := by
    simp only [annotation_eq, List.append_assoc, List.cons_append, List.nil_append,
      show "(S".toList = ['(', 'S'] from rfl]
  have hwhole : "gpu:".toList ++ (n ++ "(S".toList) ++ [':'] ++ k
      = "gpu:".toList ++ n ++ "(S:".toList ++ k := by
    simp only [annotation_eq, List.append_assoc, List.cons_append, List.nil_append,
      show "(S".toList = ['(', 'S'] from rfl]
  have ht : n ++ "(S".toList ≠ [] := by
    intro h
    have := congrArg List.length h
    simp at this
  have hnc : ':' ∉ n := not_mem_of_isDigit n hnd ':' (by decide)
  have hnk : ',' ∉ n := not_mem_of_isDigit n hnd ',' (by decide)
  have hkk : ',' ∉ k := not_mem_of_isDigit k hkd ',' (by decide)
  have htc : ':' ∉ n ++ "(S".toList := by
    simp only [List.mem_append, not_or]
    exact ⟨hnc, by decide⟩
  have hcomma : ',' ∉ "gpu:".toList ++ ((n ++ "(S".toList) ++ ':' :: (k ++ r)) := by
    simp only [gpuPrefix_eq, List.mem_append, List.mem_cons, not_or]
    refine ⟨?_, ⟨hnk, ?_⟩, ?_, hkk, hrk⟩
    · decide
    · decide
    · decide
  have hfind := FindStringSubmatch_typed (n ++ "(S".toList) k r ht htc hkd hrd
  have key : parseGRES ("gpu:".toList ++ n ++ "(S:".toList ++ k ++ r)
      = F64.ofInt (decimalValue k) := by
    rw [hshape, parseGRES_of_not_mem _ hcomma,
      parseGRESBody_typed _ (n ++ "(S".toList) k r ht htc hk hkd hrd]
    exact ParseFloat_digits k hk hkd
  refine ⟨?_, key, fun hex => ?_⟩
  · rw [hshape, hfind, hwhole]
  · rw [key]
    exact F64.ofInt_eq_int _ (by simpa using hex)

/-- C16, amended, at `gpu:4(S:0-1)`: the captures are `4(S` and `0`, and the value is 0, not
4. -/
theorem parseGRES_annotated_count_witness :
    gpuGresPattern.FindStringSubmatch "gpu:4(S:0-1)".toList
        = ["gpu:4(S:0".toList, "4(S".toList, "0".toList] ∧
      parseGRES "gpu:4(S:0-1)".toList = F64.int 0 ∧
      parseGRES "gpu:4(S:0-1)".toList ≠ F64.int 4 :=
  ⟨(parseGRES_annotated_count "4".toList "0".toList "-1)".toList (by decide) (by decide)
      (by decide) (by decide) (by decide) (by decide)).1,
   (parseGRES_annotated_count "4".toList "0".toList "-1)".toList (by decide) (by decide)
      (by decide) (by decide) (by decide) (by decide)).2.2 (by decide),
   by decide!⟩

/-! ## Claims on the addition of records -/

theorem GresGPUMetrics.eq_of_fields (x y : GresGPUMetrics)
    (h_pending : x.pending = y.pending)
    (h_pending_dep : x.pending_dep = y.pending_dep)
    (h_running : x.running = y.running)
    (h_suspended : x.suspended = y.suspended)
    (h_cancelled : x.cancelled = y.cancelled)
    (h_completing : x.completing = y.completing)
    (h_completed : x.completed = y.completed)
    (h_configuring : x.configuring = y.configuring)
    (h_failed : x.failed = y.failed)
    (h_timeout : x.timeout = y.timeout)
    (h_preempted : x.preempted = y.preempted)
    (h_node_fail : x.node_fail = y.node_fail)
    : x = y := by
  cases x
  cases y
  simp only [GresGPUMetrics.mk.injEq]
  exact ⟨h_pending, h_pending_dep, h_running, h_suspended, h_cancelled, h_completing, h_completed, h_configuring, h_failed, h_timeout, h_preempted, h_node_fail⟩

theorem jobCount_append (label a b : Str) :
    jobCount label (a ++ '\n' :: b) = jobCount label a + jobCount label b := by
  simp only [jobCount, Split_append_sep, List.countP_append]

/-- A counter of the `switch` is additive over the concatenation of two inputs that have at
most `2^53` lines together. -/
theorem ParseGresGPUMetrics_counter_add (get : GresGPUMetrics → F64) (label : Str)
    (hsw : ∀ qm sp, get (gresSwitch qm sp)
      = if sp.getD 1 [] = label then (get qm).incr else get qm)
    (hz : get GresGPUMetrics.zero = F64.zero) (a b : Str)
    (hlen : (Split a '\n').length + (Split b '\n').length ≤ 2 ^ 53) :
    get (ParseGresGPUMetrics (a ++ '\n' :: b))
      = (get (ParseGresGPUMetrics a)).add (get (ParseGresGPUMetrics b)) := by
  have hab : (Split (a ++ '\n' :: b) '\n').length ≤ 2 ^ 53 := by
    rw [Split_append_sep, List.length_append]
    exact hlen
  have ha : jobCount label a ≤ (Split a '\n').length := List.countP_le_length _
  have hb : jobCount label b ≤ (Split b '\n').length := List.countP_le_length _
  rw [ParseGresGPUMetrics_counter get label hsw hz _ hab,
    ParseGresGPUMetrics_counter get label hsw hz a (by omega),
    ParseGresGPUMetrics_counter get label hsw hz b (by omega),
    F64.add_int _ _ (by omega), jobCount_append]
  have harith : ((jobCount label a + jobCount label b : Nat) : Int)
      = (jobCount label a : Int) + (jobCount label b : Int) := by
    push_cast
    rfl
  rw [harith]

theorem F64.add_zero_zero : F64.add F64.zero F64.zero = F64.zero := by
  decide!

/-- The record is a function of the numbers of job lines of each state, so the order of the
lines does not matter. -/
theorem foldl_gres_perm (ls ls' : List Str) (hp : ls.Perm ls') :
    ls.foldl gresLoopBody GresGPUMetrics.zero = ls'.foldl gresLoopBody GresGPUMetrics.zero := by
  apply GresGPUMetrics.eq_of_fields
  · rw [foldl_gres_counter (fun qm => qm.pending) _ gresSwitch_pending,
      foldl_gres_counter (fun qm => qm.pending) _ gresSwitch_pending, hp.countP_eq]
  · rw [foldl_gres_pending_dep, foldl_gres_pending_dep]
  · rw [foldl_gres_counter (fun qm => qm.running) _ gresSwitch_running,
      foldl_gres_counter (fun qm => qm.running) _ gresSwitch_running, hp.countP_eq]
  · rw [foldl_gres_counter (fun qm => qm.suspended) _ gresSwitch_suspended,
      foldl_gres_counter (fun qm => qm.suspended) _ gresSwitch_suspended, hp.countP_eq]
  · rw [foldl_gres_counter (fun qm => qm.cancelled) _ gresSwitch_cancelled,
      foldl_gres_counter (fun qm => qm.cancelled) _ gresSwitch_cancelled, hp.countP_eq]
  · rw [foldl_gres_counter (fun qm => qm.completing) _ gresSwitch_completing,
      foldl_gres_counter (fun qm => qm.completing) _ gresSwitch_completing, hp.countP_eq]
  · rw [foldl_gres_counter (fun qm => qm.completed) _ gresSwitch_completed,
      foldl_gres_counter (fun qm => qm.completed) _ gresSwitch_completed, hp.countP_eq]
  · rw [foldl_gres_counter (fun qm => qm.configuring) _ gresSwitch_configuring,
      foldl_gres_counter (fun qm => qm.configuring) _ gresSwitch_configuring, hp.countP_eq]
  · rw [foldl_gres_counter (fun qm => qm.failed) _ gresSwitch_failed,
      foldl_gres_counter (fun qm => qm.failed) _ gresSwitch_failed, hp.countP_eq]
  · rw [foldl_gres_counter (fun qm => qm.timeout) _ gresSwitch_timeout,
      foldl_gres_counter (fun qm => qm.timeout) _ gresSwitch_timeout, hp.countP_eq]
  · rw [foldl_gres_counter (fun qm => qm.preempted) _ gresSwitch_preempted,
      foldl_gres_counter (fun qm => qm.preempted) _ gresSwitch_preempted, hp.countP_eq]
  · rw [foldl_gres_counter (fun qm => qm.node_fail) _ gresSwitch_node_fail,
      foldl_gres_counter (fun qm => qm.node_fail) _ gresSwitch_node_fail, hp.countP_eq]

/-- C17: `ParseGresGPUMetrics` is additive over the concatenation of lines.  For inputs `a`
and `b` (of at most `2^53` lines together, the count up to which a `float64` counter is
exact) every counter of the record of `a + "\n" + b` is the sum of the counters of the
records of `a` and of `b`; and two inputs whose lines are a rearrangement of each other give
the same record. -/
theorem ParseGresGPUMetrics_additive (a b : Str)
    (hlen : (Split a '\n').length + (Split b '\n').length ≤ 2 ^ 53) :
    ParseGresGPUMetrics (a ++ "\n".toList ++ b)
        = (ParseGresGPUMetrics a).add (ParseGresGPUMetrics b) ∧
      (∀ ls ls' : List Str, (∀ l ∈ ls, '\n' ∉ l) → ls.Perm ls' →
        ParseGresGPUMetrics (joinLines ls) = ParseGresGPUMetrics (joinLines ls')) := by
  have hshape : a ++ "\n".toList ++ b = a ++ '\n' :: b := by
    simp only [show "\n".toList = ['\n'] from rfl, List.append_assoc, List.singleton_append]
  constructor
  · rw [hshape]
    apply GresGPUMetrics.eq_of_fields
    · exact ParseGresGPUMetrics_counter_add (fun qm => qm.pending) _ gresSwitch_pending rfl a b hlen
    · simp only [GresGPUMetrics.add, ParseGresGPUMetrics_pending_dep_zero, F64.add_zero_zero]
    · exact ParseGresGPUMetrics_counter_add (fun qm => qm.running) _ gresSwitch_running rfl a b hlen
    · exact ParseGresGPUMetrics_counter_add (fun qm => qm.suspended) _ gresSwitch_suspended rfl a b hlen
    · exact ParseGresGPUMetrics_counter_add (fun qm => qm.cancelled) _ gresSwitch_cancelled rfl a b hlen
    · exact ParseGresGPUMetrics_counter_add (fun qm => qm.completing) _ gresSwitch_completing rfl a b hlen
    · exact ParseGresGPUMetrics_counter_add (fun qm => qm.completed) _ gresSwitch_completed rfl a b hlen
    · exact ParseGresGPUMetrics_counter_add (fun qm => qm.configuring) _ gresSwitch_configuring rfl a b hlen
    · exact ParseGresGPUMetrics_counter_add (fun qm => qm.failed) _ gresSwitch_failed rfl a b hlen
    · exact ParseGresGPUMetrics_counter_add (fun qm => qm.timeout) _ gresSwitch_timeout rfl a b hlen
    · exact ParseGresGPUMetrics_counter_add (fun qm => qm.preempted) _ gresSwitch_preempted rfl a b hlen
    · exact ParseGresGPUMetrics_counter_add (fun qm => qm.node_fail) _ gresSwitch_node_fail rfl a b hlen
  · intro ls ls' hls hp
    have hls' : ∀ l ∈ ls', '\n' ∉ l := fun l hl => hls l (hp.mem_iff.mpr hl)
    rw [ParseGresGPUMetrics_joinLines ls hls, ParseGresGPUMetrics_joinLines ls' hls']
    exact foldl_gres_perm ls ls' hp

/-- C17 at `101 RUNNING gres/gpu=2` and `102 PENDING gres/gpu=1`: the record of both lines
is the sum of the records, in either order (running 1, pending 1); `ParseGPUsMetrics` is not
additive, twice the node `a gpu:1 gpu:0` has total 1. -/
theorem ParseGresGPUMetrics_additive_witness :
    ParseGresGPUMetrics
        ("101 RUNNING gres/gpu=2".toList ++ "\n".toList ++ "102 PENDING gres/gpu=1".toList)
      = (ParseGresGPUMetrics "101 RUNNING gres/gpu=2".toList).add
          (ParseGresGPUMetrics "102 PENDING gres/gpu=1".toList) ∧
    ParseGresGPUMetrics "101 RUNNING gres/gpu=2\n102 PENDING gres/gpu=1".toList
      = ParseGresGPUMetrics "102 PENDING gres/gpu=1\n101 RUNNING gres/gpu=2".toList ∧
    ParseGresGPUMetrics "101 RUNNING gres/gpu=2\n102 PENDING gres/gpu=1".toList
      = { GresGPUMetrics.zero with running := F64.int 1, pending := F64.int 1 } ∧
    (ParseGPUsMetrics "a gpu:1 gpu:0\na gpu:1 gpu:0".toList).total = F64.int 1 ∧
    (ParseGPUsMetrics "a gpu:1 gpu:0".toList).total.add
        (ParseGPUsMetrics "a gpu:1 gpu:0".toList).total = F64.int 2 :=
  ⟨(ParseGresGPUMetrics_additive "101 RUNNING gres/gpu=2".toList
      "102 PENDING gres/gpu=1".toList (by decide)).1,
   (ParseGresGPUMetrics_additive "101 RUNNING gres/gpu=2".toList
      "102 PENDING gres/gpu=1".toList (by decide)).2
      ["101 RUNNING gres/gpu=2".toList, "102 PENDING gres/gpu=1".toList]
      ["102 PENDING gres/gpu=1".toList, "101 RUNNING gres/gpu=2".toList]
      (by decide) (List.Perm.swap _ _ _),
   by decide!, by decide!, by decide!⟩

end SlurmExporter
